import Mathlib

/-!
Verification of the Productive-Simple-MCP core against its specification.

The development shallowly embeds the two specified components:
* the response sanitizer (`src/utils.py`): `remove_null_and_empty`,
  `_filter_attributes`, `_filter_task_list_attributes`, `_clean_meta_object`,
  `_extract_workflow_status_name`, `_add_webapp_url`, `filter_response`,
  `filter_task_list_response`, `filter_page_list_response`;
* the API gateway client (`src/productive_client.py`): `_should_retry`,
  `_parse_error_response` and the retry loop of `_request`;
* the single-task fill-in policy of `get_task` (`src/tools_read.py`).

JSON values are modelled by the mutual inductive family `JVal`/`JArr`/`JObj`
(dictionaries are insertion-ordered association lists, as in Python).
Code paths that raise in Python (attribute errors on non-mapping values,
item assignment on non-mapping values, `dict()` coercion failures) are
modelled by `Option`-valued functions, `none` meaning the call raises.
-/

mutual

/-- A JSON value as handled by the Python code: `None`, booleans, numbers,
strings, arrays and (insertion-ordered) dictionaries.  Numbers are modelled
as integers; the claims under study never depend on float/int distinctions. -/
inductive JVal where
  | null : JVal
  | bool : Bool → JVal
  | num : Int → JVal
  | str : String → JVal
  | arr : JArr → JVal
  | obj : JObj → JVal

/-- A JSON array (list of values). -/
inductive JArr where
  | nil : JArr
  | cons : JVal → JArr → JArr

/-- A JSON object: an insertion-ordered association list of string keys and
values, mirroring a Python `dict`. -/
inductive JObj where
  | nil : JObj
  | cons : String → JVal → JObj → JObj

end

deriving instance DecidableEq for JVal, JArr, JObj
deriving instance Repr for JVal, JArr, JObj

/-- Python `d.get(k)`: value of the first entry with key `k`, if any. -/
def getKeyO : JObj → String → Option JVal
  | .nil, _ => none
  | .cons k v rest, s => if k = s then some v else getKeyO rest s

/-- Python `k in d`. -/
def hasKeyO (o : JObj) (s : String) : Bool :=
  (getKeyO o s).isSome

/-- Python `d[k] = v`: replace the value of the first entry with key `k`
in place (Python keeps the key's insertion position), else append. -/
def setKeyO : JObj → String → JVal → JObj
  | .nil, s, v => .cons s v .nil
  | .cons k w rest, s, v =>
    if k = s then .cons k v rest else .cons k w (setKeyO rest s v)

/-- Python `d.pop(k, None)` (for unique-key dictionaries): drop entries
with key `k`. -/
def eraseKey : JObj → String → JObj
  | .nil, _ => .nil
  | .cons k v rest, s =>
    if k = s then eraseKey rest s else .cons k v (eraseKey rest s)

/-- The entries of an object, as a Lean list. -/
def JObj.toList : JObj → List (String × JVal)
  | .nil => []
  | .cons k v rest => (k, v) :: rest.toList

/-- The keys of an object, in order. -/
def JObj.keys (o : JObj) : List String :=
  o.toList.map Prod.fst

/-- The elements of an array, as a Lean list. -/
def JArr.toList : JArr → List JVal
  | .nil => []
  | .cons v rest => v :: rest.toList

/-- Concatenation of entry lists (used to build dictionaries key by key). -/
def JObj.append : JObj → JObj → JObj
  | .nil, o => o
  | .cons k v rest, o => .cons k v (rest.append o)

instance : Append JObj := ⟨JObj.append⟩

/-- Python's emptiness test `x in (None, "", {}, [])` used by the pruner. -/
def isEmptyLike : JVal → Bool
  | .null => true
  | .str s => s = ""
  | .arr .nil => true
  | .obj .nil => true
  | _ => false

/-- Python truthiness of a JSON value (`if x:`). -/
def truthy : JVal → Bool
  | .null => false
  | .bool b => b
  | .num n => n ≠ 0
  | .str s => s ≠ ""
  | .arr a => a ≠ .nil
  | .obj o => o ≠ .nil

example : isEmptyLike (.bool false) = false := by decide
example : truthy (.num 0) = false := by decide
example : getKeyO (.cons "a" (.num 1) (.cons "b" .null .nil)) "b" = some .null := by decide

/-- Modelled from the spec: the organization id read from configuration
(`config.organization`; `config.py` is not under `src/`).  Its concrete
value is immaterial to every claim; only its occurrence inside generated
URLs matters. -/
def organization : String := "12345"

/-- `utils.get_webapp_url`: the Productive web-app URL of a resource. -/
def get_webapp_url (resource_type : String) (resource_id : String) : String :=
  "https://app.productive.io/" ++ organization ++ "/" ++ resource_type ++ "/" ++ resource_id

mutual

/-- Helper for `pyStr`/`pyRepr`: Python `str()` conversion of a value, used
when a value is interpolated into an f-string.  Strings convert to
themselves; containers use their `repr`. -/
def pyStr : JVal → String
  | .str s => s
  | v => pyRepr v

/-- Python `repr()` of a JSON value (close approximation: string escaping
inside `repr` is not modelled; no claim depends on it). -/
def pyRepr : JVal → String
  | .null => "None"
  | .bool true => "True"
  | .bool false => "False"
  | .num n => toString n
  | .str s => "'" ++ s ++ "'"
  | .arr a => "[" ++ pyReprArr a ++ "]"
  | .obj o => "\x7b" ++ pyReprObj o ++ "\x7d"

/-- Comma-separated `repr` of array elements. -/
def pyReprArr : JArr → String
  | .nil => ""
  | .cons v .nil => pyRepr v
  | .cons v rest => pyRepr v ++ ", " ++ pyReprArr rest

/-- Comma-separated `repr` of dictionary entries. -/
def pyReprObj : JObj → String
  | .nil => ""
  | .cons k v .nil => "'" ++ k ++ "': " ++ pyRepr v
  | .cons k v rest => "'" ++ k ++ "': " ++ pyRepr v ++ ", " ++ pyReprObj rest

end

mutual

/-- Modelled from the spec: `bleach.clean(s, tags=[], strip=True)` from the
external `bleach` library — "strip all markup tags, leaving only text
content" (spec §4.2).  Tag spans `<`…`>` are removed (an unterminated tag
is dropped to the end of the string); text outside tags is preserved. -/
def stripTagsChars : List Char → List Char
  | [] => []
  | c :: rest => if c = '<' then dropTagChars rest else c :: stripTagsChars rest

/-- Skip the remainder of a markup tag, up to and including `>`. -/
def dropTagChars : List Char → List Char
  | [] => []
  | c :: rest => if c = '>' then stripTagsChars rest else dropTagChars rest

end

/-- Modelled from the spec: `bleach.clean(s, tags=[], strip=True)` on a
string value (see `stripTagsChars`). -/
def bleach_clean (s : String) : String :=
  String.mk (stripTagsChars s.data)

example : bleach_clean "<p>Hello <b>world</b></p>" = "Hello world" := by decide

/-- The per-type deny list of `utils._filter_attributes` (`remove_fields`),
selected by the enclosing resource object's `type` value; any missing or
non-string type selects the empty rule set (Python `dict.get(t, [])`). -/
def remove_fields : Option JVal → List String
  | some (.str "tasks") => ["creation_method_id", "email_key", "placement"]
  | some (.str "comments") => []
  | some (.str "todos") => []
  | some (.str "pages") =>
    ["preferences", "cover_image_meta", "custom_fields", "version_number", "position"]
  | some (.str "page") =>
    ["preferences", "cover_image_meta", "custom_fields", "version_number", "position"]
  | some (.str "attachments") => ["attachable_type", "attachable_id"]
  | some (.str "projects") =>
    ["sample_data", "template", "time_on_tasks", "project_color_id",
     "duplication_status", "project_type_id", "preferences", "number"]
  | _ => []

/-- The per-type HTML-stripping list of `utils._filter_attributes`
(`html_fields`). -/
def html_fields : Option JVal → List String
  | some (.str "tasks") => ["description"]
  | some (.str "comments") => ["body"]
  | some (.str "todos") => ["description"]
  | some (.str "pages") => []
  | some (.str "page") => []
  | _ => []

/-- `utils._filter_attributes`: drop the deny-listed fields for the object's
type, then strip HTML from the type's free-text fields when they hold a
string. -/
def _filter_attributes : JObj → Option JVal → JObj
  | .nil, _ => .nil
  | .cons k v rest, t =>
    if (remove_fields t).contains k then _filter_attributes rest t
    else
      let v2 := if (html_fields t).contains k then
          match v with
          | .str s => JVal.str (bleach_clean s)
          | w => w
        else v
      .cons k v2 (_filter_attributes rest t)

/-- `utils._clean_meta_object`: drop `included` when it is exactly `False`,
and always drop `settings`. -/
def _clean_meta_object (m : JObj) : JObj :=
  let m1 := if getKeyO m "included" = some (.bool false) then eraseKey m "included" else m
  eraseKey m1 "settings"

mutual

/-- `utils.remove_null_and_empty`: recursively prune a JSON value.  Inside
dictionaries, `links` keys are skipped, `organization` is dropped from
`relationships` mappings, cleaned values equal to `None`/`""`/`{}`/`[]`
are dropped, `attributes` mappings are passed through the type-specific
filter, and `meta` mappings are cleaned and dropped when empty. -/
def remove_null_and_empty : JVal → JVal
  | .obj kvs => .obj (rnObj false kvs kvs)
  | .arr xs => .arr (rnArr xs)
  | v => v

/-- List branch of `remove_null_and_empty`: clean each element and drop
elements whose cleaned value is `None`/`""`/`{}`/`[]`. -/
def rnArr : JArr → JArr
  | .nil => .nil
  | .cons v rest =>
    let cv := remove_null_and_empty v
    if isEmptyLike cv then rnArr rest else .cons cv (rnArr rest)

/-- Dictionary branch of `remove_null_and_empty`.  `whole` is the full
entry list of the dictionary being cleaned (used for the `obj.get('type')`
lookup of the attributes branch); `dropOrg` is set when the dictionary is
the value of a `relationships` key, in which case its `organization`
entries are dropped (Python filters them out before recursing; skipping
them during the walk is equivalent since the per-entry processing only
consults `whole` for the first `type` entry). -/
def rnObj (dropOrg : Bool) (whole : JObj) : JObj → JObj
  | .nil => .nil
  | .cons k v rest =>
    if dropOrg && k = "organization" then rnObj dropOrg whole rest
    else if k = "links" then rnObj dropOrg whole rest
    else
      let cv := match v, decide (k = "relationships") with
        | .obj rkvs, true => JVal.obj (rnObj true rkvs rkvs)
        | w, _ => remove_null_and_empty w
      if isEmptyLike cv then rnObj dropOrg whole rest
      else
        let cv2 := match cv, decide (k = "attributes") with
          | .obj akvs, true => JVal.obj (_filter_attributes akvs (getKeyO whole "type"))
          | w, _ => w
        match cv2, decide (k = "meta") with
        | .obj mkvs, true =>
          match _clean_meta_object mkvs with
          | .nil => rnObj dropOrg whole rest
          | m => .cons k (.obj m) (rnObj dropOrg whole rest)
        | w, _ => .cons k w (rnObj dropOrg whole rest)

end

/-- The allow list of `utils._filter_task_list_attributes`
(`essential_fields`). -/
def essential_fields : List String :=
  ["title", "task_number", "closed", "created_at", "updated_at",
   "initial_estimate", "remaining_time", "worked_time", "billable_time",
   "closed_at", "type_id", "private", "workflow_status_name"]

/-- `utils._filter_task_list_attributes`: keep only the allow-listed
fields, preserving order. -/
def _filter_task_list_attributes : JObj → JObj
  | .nil => .nil
  | .cons k v rest =>
    if essential_fields.contains k then .cons k v (_filter_task_list_attributes rest)
    else _filter_task_list_attributes rest

/-- `utils._add_webapp_url` on a dictionary's entry list: when both `type`
and `id` are present and truthy, set `webapp_url` (replacing an existing
entry in place, else appending, as Python item assignment does). -/
def addWebappUrlO (kvs : JObj) : JObj :=
  if truthy ((getKeyO kvs "type").getD .null) && truthy ((getKeyO kvs "id").getD .null) then
    setKeyO kvs "webapp_url" (.str (get_webapp_url
      (pyStr ((getKeyO kvs "type").getD .null)) (pyStr ((getKeyO kvs "id").getD .null))))
  else kvs

/-- `utils._add_webapp_url`: non-dictionary items are left untouched. -/
def _add_webapp_url : JVal → JVal
  | .obj kvs => .obj (addWebappUrlO kvs)
  | v => v

/-- Inner loop of `utils._extract_workflow_status_name`: find the first
`workflow_statuses` item of `included` with the given id and return its
`attributes.name` (Python `None` is `JVal.null`).  Returns `none` when the
Python code would raise (`.get` on a non-dictionary `attributes`). -/
def findWorkflowStatusName : JArr → JVal → Option JVal
  | .nil, _ => some .null
  | .cons it rest, wsid =>
    match it with
    | .obj ckvs =>
      if (getKeyO ckvs "type").getD .null = .str "workflow_statuses"
          && (getKeyO ckvs "id").getD .null = wsid then
        match (getKeyO ckvs "attributes").getD (.obj .nil) with
        | .obj akvs => some ((getKeyO akvs "name").getD .null)
        | _ => none
      else findWorkflowStatusName rest wsid
    | _ => findWorkflowStatusName rest wsid

/-- `utils._extract_workflow_status_name`: resolve the task's
`relationships.workflow_status.data.id` against `included` and return the
matching status's `attributes.name`.  `some JVal.null` is Python's `None`
result; `none` means the Python code raises (`.get` on a non-dictionary
`relationships` or `workflow_status` value, or a non-dictionary
`attributes` on the matching included item). -/
def _extract_workflow_status_name (item : JVal) (included : JVal) : Option JVal :=
  match item, included with
  | .obj ikvs, .arr incl =>
    match (getKeyO ikvs "relationships").getD (.obj .nil) with
    | .obj rkvs =>
      match (getKeyO rkvs "workflow_status").getD (.obj .nil) with
      | .obj wkvs =>
        let wsd := (getKeyO wkvs "data").getD .null
        if truthy wsd = false then some .null
        else
          match wsd with
          | .obj dkvs =>
            let wsid := (getKeyO dkvs "id").getD .null
            if truthy wsid = false then some .null
            else findWorkflowStatusName incl wsid
          | _ => some .null
      | _ => none
    | _ => none
  | _, _ => some .null

/-- Enrichment of one resource object in `utils.filter_response`: add the
web-app URL, and for `tasks` resolve and attach `workflow_status_name`.
`none` means the Python code raises (item assignment on a non-dictionary
`attributes` value, or a raise inside the workflow-status lookup). -/
def enrichItemO (included : JVal) (kvs : JObj) : Option JObj :=
  if (getKeyO (addWebappUrlO kvs) "type").getD .null = .str "tasks" then
    match _extract_workflow_status_name (.obj (addWebappUrlO kvs)) included with
    | none => none
    | some name =>
      if truthy name && hasKeyO (addWebappUrlO kvs) "attributes" then
        match getKeyO (addWebappUrlO kvs) "attributes" with
        | some (.obj akvs) =>
          some (setKeyO (addWebappUrlO kvs) "attributes"
            (.obj (setKeyO akvs "workflow_status_name" name)))
        | _ => none
      else some (addWebappUrlO kvs)
  else some (addWebappUrlO kvs)

/-- Enrichment of a `data` list in `utils.filter_response`.  A non-dictionary
element makes the Python code raise (`item.get` on a non-dictionary), hence
`none`. -/
def enrichList (included : JVal) : JArr → Option JArr
  | .nil => some .nil
  | .cons it rest =>
    match it with
    | .obj kvs =>
      match enrichItemO included kvs, enrichList included rest with
      | some kvs2, some rest2 => some (.cons (.obj kvs2) rest2)
      | _, _ => none
    | _ => none

/-- `utils.filter_response`: prune with `remove_null_and_empty`, then add
`webapp_url` and (for tasks) `workflow_status_name` to the resource
object(s) under `data`, resolving against the original response's
`included`.  `none` means the Python code raises. -/
def filter_response (response : JVal) : Option JVal :=
  let filtered := remove_null_and_empty response
  match filtered with
  | .obj fkvs =>
    if hasKeyO fkvs "data" then
      let included := match response with
        | .obj rkvs => (getKeyO rkvs "included").getD (.arr .nil)
        | _ => .arr .nil
      match getKeyO fkvs "data" with
      | some (.obj ikvs) =>
        (enrichItemO included ikvs).map (fun it => .obj (setKeyO fkvs "data" (.obj it)))
      | some (.arr items) =>
        (enrichList included items).map (fun l => .obj (setKeyO fkvs "data" (.arr l)))
      | _ => some (.obj fkvs)
    else some (.obj fkvs)
  | v => some v

/-- Per-item transform of `utils.filter_task_list_response`: a dictionary
item of type `tasks` is rebuilt as `{id, type, attributes?, webapp_url?}`
with allow-listed attributes plus the resolved `workflow_status_name`;
every other item passes through unchanged.  `none` means the Python code
raises (`.items()` on a non-dictionary `attributes`, or a raise inside the
workflow-status lookup). -/
def tlItem (included : JVal) (item : JVal) : Option JVal :=
  match item with
  | .obj kvs =>
    if (getKeyO kvs "type").getD .null = .str "tasks" then
      match getKeyO kvs "attributes" with
      | some (.obj akvs) =>
        match _extract_workflow_status_name (.obj kvs) included with
        | none => none
        | some name =>
          some (.obj (addWebappUrlO (.cons "id" ((getKeyO kvs "id").getD .null)
            (.cons "type" ((getKeyO kvs "type").getD .null)
              (.cons "attributes" (.obj
                (if truthy name then
                  setKeyO (_filter_task_list_attributes akvs) "workflow_status_name" name
                 else _filter_task_list_attributes akvs)) .nil)))))
      | some _ => none
      | none => some (.obj (addWebappUrlO (.cons "id" ((getKeyO kvs "id").getD .null)
          (.cons "type" ((getKeyO kvs "type").getD .null) .nil))))
    else some item
  | _ => some item

/-- The `data` loop of `utils.filter_task_list_response`. -/
def tlMapItems (included : JVal) : JArr → Option JArr
  | .nil => some .nil
  | .cons it rest =>
    match tlItem included it, tlMapItems included rest with
    | some it2, some rest2 => some (.cons it2 rest2)
    | _, _ => none

/-- `utils.filter_task_list_response`: non-dictionary responses pass through
unchanged; otherwise rebuild `data` item-wise via `tlItem`, keep a cleaned
`meta`, and run the result through `remove_null_and_empty`.  `none` means
the Python code raises (inside `tlItem`, or `dict()` coercion of a
non-dictionary `meta`). -/
def filter_task_list_response (response : JVal) : Option JVal :=
  match response with
  | .obj rkvs =>
    match (match getKeyO rkvs "data" with
      | some (.arr items) =>
        (tlMapItems ((getKeyO rkvs "included").getD (.arr .nil)) items).map
          (fun l => JObj.cons "data" (.arr l) .nil)
      | _ => some .nil : Option JObj) with
    | none => none
    | some dp =>
      match getKeyO rkvs "meta" with
      | some (.obj mkvs) =>
        some (remove_null_and_empty (.obj (dp ++ (.cons "meta" (.obj (_clean_meta_object mkvs)) .nil))))
      | some _ => none
      | none => some (remove_null_and_empty (.obj dp))
  | v => some v

/-- Per-item transform of `utils.filter_page_list_response`: a dictionary
item of type `pages` is rebuilt as `{id, type, attributes-without-body?,
webapp_url?}`; other items pass through unchanged.  This path never
raises (the page version guards `attributes` with `isinstance`). -/
def plItem (item : JVal) : JVal :=
  match item with
  | .obj kvs =>
    if (getKeyO kvs "type").getD .null = .str "pages" then
      let base : JObj :=
        .cons "id" ((getKeyO kvs "id").getD .null)
          (.cons "type" ((getKeyO kvs "type").getD .null) .nil)
      match (getKeyO kvs "attributes").getD (.obj .nil) with
      | .obj akvs => .obj (addWebappUrlO (base ++ .cons "attributes" (.obj (eraseKey akvs "body")) .nil))
      | _ => .obj (addWebappUrlO base)
    else item
  | _ => item

/-- The `data` loop of `utils.filter_page_list_response`. -/
def plMapItems : JArr → JArr
  | .nil => .nil
  | .cons it rest => .cons (plItem it) (plMapItems rest)

/-- `utils.filter_page_list_response`: non-dictionary responses pass
through unchanged; otherwise drop each page's `body`, keep a cleaned
`meta`, and run the result through `remove_null_and_empty`.  `none` means
the Python code raises (`dict()` coercion of a non-dictionary `meta`). -/
def filter_page_list_response (response : JVal) : Option JVal :=
  match response with
  | .obj rkvs =>
    let dataPart : JObj :=
      match getKeyO rkvs "data" with
      | some (.arr items) => .cons "data" (.arr (plMapItems items)) .nil
      | _ => .nil
    match getKeyO rkvs "meta" with
    | some (.obj mkvs) =>
      some (remove_null_and_empty (.obj (dataPart ++ (.cons "meta" (.obj (_clean_meta_object mkvs)) .nil))))
    | some _ => none
    | none => some (remove_null_and_empty (.obj dataPart))
  | v => some v

/-- Python `s in v` (the membership test `"attributes" in filtered["data"]`
of `tools_read.get_task`): key lookup on dictionaries, element equality on
lists, substring test on strings; anything else raises (`none`). -/
def pyContains (v : JVal) (s : String) : Option Bool :=
  match v with
  | .obj kvs => some (hasKeyO kvs s)
  | .arr xs => some (arrHasStr xs s)
  | .str t => some (s = "" || (t.splitOn s).length ≥ 2)
  | _ => none
where
  /-- Python `s in list`: some element equals the string. -/
  arrHasStr : JArr → String → Bool
    | .nil, _ => false
    | .cons v rest, s => v = .str s || arrHasStr rest s

/-- The time-tracking fields defaulted by `tools_read.get_task`, in the
iteration order of its `time_fields` dictionary. -/
def time_fields : List String :=
  ["initial_estimate", "worked_time", "billable_time", "remaining_time"]

/-- The fill-in loop of `tools_read.get_task`: default each missing or
`None` time-tracking entry to `0`. -/
def fillTimeFields (akvs : JObj) : JObj :=
  time_fields.foldl
    (fun a k => if getKeyO a k = none || getKeyO a k = some .null then setKeyO a k (.num 0) else a)
    akvs

/-- The caller-level post-processing of `tools_read.get_task` applied to the
output of `filter_response`: when the filtered document has `data` and the
data value has `attributes`, default the four time-tracking attributes.
`none` means the Python code raises (membership test on a non-container,
or subscripting/assigning a non-dictionary). -/
def ensure_time_fields (filtered : JVal) : Option JVal :=
  match pyContains filtered "data" with
  | none => none
  | some false => some filtered
  | some true =>
    match filtered with
    | .obj fkvs =>
      match pyContains ((getKeyO fkvs "data").getD .null) "attributes" with
      | none => none
      | some false => some filtered
      | some true =>
        match (getKeyO fkvs "data").getD .null with
        | .obj dkvs =>
          match getKeyO dkvs "attributes" with
          | some (.obj akvs) =>
            some (.obj (setKeyO fkvs "data" (.obj (setKeyO dkvs "attributes" (.obj (fillTimeFields akvs))))))
          | _ => none
        | _ => none
    | _ => none

/-- The post-fetch pipeline of `tools_read.get_task`:
`filter_response` followed by the time-field fill-in. -/
def get_task_postprocess (result : JVal) : Option JVal :=
  (filter_response result).bind ensure_time_fields

/-- `ProductiveClient.max_retries`. -/
def max_retries : Nat := 3

/-- `ProductiveClient.retry_delay` (1.0 seconds; exact in the float range
used here, modelled as a rational). -/
def retry_delay : ℚ := 1

/-- `ProductiveClient._should_retry`. -/
def _should_retry (status_code : Nat) (attempt : Nat) : Bool :=
  decide (attempt < max_retries) && (status_code = 429 || status_code ≥ 500)

/-- The backoff delay `retry_delay * (2 ** attempt)` slept before retrying. -/
def backoffDelay (attempt : Nat) : ℚ :=
  retry_delay * 2 ^ attempt

/-- An HTTP response as consumed by `_request`: its status code, the result
of `response.json()` (`none` when the body is not valid JSON), and its raw
text. -/
structure HttpResponse where
  status_code : Nat
  jsonBody : Option JVal
  text : String
deriving DecidableEq, Repr

/-- One attempt's outcome at the transport level: either an
`httpx.RequestError` (connection/timeout/DNS failure) with its message, or
an HTTP response. -/
inductive ReqOutcome where
  | netErr (msg : String) : ReqOutcome
  | http (resp : HttpResponse) : ReqOutcome
deriving DecidableEq, Repr

/-- `ProductiveAPIError` as raised by the client: message (any JSON value,
since a parsed error body's `message` need not be a string), optional
status code, optional error code. -/
structure APIError where
  message : JVal
  status_code : Option Nat
  error_code : Option JVal
deriving DecidableEq, Repr

/-- `ProductiveClient._parse_error_response`: read `message` and
`errorCode` from the parsed JSON body; any failure (unparseable body, or a
body that is not a dictionary, making `.get` raise inside the `try`) falls
back to `"HTTP {status}: {text}"` with code `"UNKNOWN"`. -/
def _parse_error_response (resp : HttpResponse) (default_message : String) : JVal × JVal :=
  match resp.jsonBody with
  | some (.obj kvs) =>
    ((getKeyO kvs "message").getD (.str default_message),
     (getKeyO kvs "errorCode").getD (.str "UNKNOWN"))
  | _ =>
    (.str ("HTTP " ++ toString resp.status_code ++ ": " ++ resp.text), .str "UNKNOWN")

/-- How one call to `_request` ends: a returned JSON document, a raised
`ProductiveAPIError`, an unhandled exception (`response.json()` failing on
a 200), or the `for` loop falling through (unreachable, kept for
faithfulness). -/
inductive ReqResult where
  | ok (v : JVal) : ReqResult
  | err (e : APIError) : ReqResult
  | jsonDecodeErr : ReqResult
  | fellThrough : ReqResult
deriving DecidableEq, Repr

/-- The observable run of one `_request` call: its outcome, the backoff
delays slept (in order), and the number of attempts made. -/
structure RunResult where
  outcome : ReqResult
  sleeps : List ℚ
  attempts : Nat
deriving DecidableEq, Repr

/-- The final-error construction of `_request` (final retryable attempt or
non-retryable 4xx): parse the error body with the 429-specific default
message. -/
def finalError (resp : HttpResponse) : APIError :=
  let p := _parse_error_response resp
    (if resp.status_code = 429 then "Rate limit exceeded" else "Server error")
  ⟨p.1, some resp.status_code, some p.2⟩

/-- The retry loop of `ProductiveClient._request`.  `responses` gives the
transport outcome of each attempt (attempt numbering starts at 0, as in
`for attempt in range(self.max_retries + 1)`); `fuel` is the number of
loop iterations remaining, `sleeps`/`attempts` accumulate the trace. -/
def requestGo (responses : Nat → ReqOutcome) (attempt fuel : Nat)
    (sleeps : List ℚ) (attempts : Nat) : RunResult :=
  match fuel with
  | 0 => ⟨.fellThrough, sleeps.reverse, attempts⟩
  | fuel + 1 =>
    match responses attempt with
    | .netErr msg =>
      if attempt < max_retries then
        requestGo responses (attempt + 1) fuel (backoffDelay attempt :: sleeps) (attempts + 1)
      else
        ⟨.err ⟨.str ("Request failed: " ++ msg), none, none⟩, sleeps.reverse, attempts + 1⟩
    | .http resp =>
      if resp.status_code = 200 then
        match resp.jsonBody with
        | some v => ⟨.ok v, sleeps.reverse, attempts + 1⟩
        | none => ⟨.jsonDecodeErr, sleeps.reverse, attempts + 1⟩
      else if resp.status_code = 401 then
        ⟨.err ⟨.str "Unauthorized: Invalid API token", some 401, some (.str "UNAUTHORIZED")⟩,
          sleeps.reverse, attempts + 1⟩
      else if resp.status_code = 404 then
        ⟨.err ⟨.str "Resource not found", some 404, some (.str "NOT_FOUND")⟩,
          sleeps.reverse, attempts + 1⟩
      else if _should_retry resp.status_code attempt then
        requestGo responses (attempt + 1) fuel (backoffDelay attempt :: sleeps) (attempts + 1)
      else
        ⟨.err (finalError resp), sleeps.reverse, attempts + 1⟩

/-- `ProductiveClient._request` on a given sequence of per-attempt
outcomes. -/
def _request (responses : Nat → ReqOutcome) : RunResult :=
  requestGo responses 0 (max_retries + 1) [] 0

theorem requestGo_retry_step (responses : Nat → ReqOutcome) (a fuel : Nat)
    (sleeps : List ℚ) (n : Nat) (r : HttpResponse)
    (hr : responses a = .http r) (hs : r.status_code = 429 ∨ 500 ≤ r.status_code)
    (ha : a < max_retries) :
    requestGo responses a (fuel + 1) sleeps n
      = requestGo responses (a + 1) fuel (backoffDelay a :: sleeps) (n + 1) := by
  have h200 : ¬ r.status_code = 200 := by omega
  have h401 : ¬ r.status_code = 401 := by omega
  have h404 : ¬ r.status_code = 404 := by omega
  have hret : _should_retry r.status_code a = true := by
    simp only [_should_retry, Bool.and_eq_true, decide_eq_true_eq, Bool.or_eq_true]
    exact ⟨ha, by omega⟩
  simp only [requestGo, hr, h200, h401, h404, hret, if_false, if_true, ite_true, ite_false]

theorem requestGo_final_retryable (responses : Nat → ReqOutcome) (fuel : Nat)
    (sleeps : List ℚ) (n : Nat) (r : HttpResponse)
    (hr : responses max_retries = .http r)
    (hs : r.status_code = 429 ∨ 500 ≤ r.status_code) :
    requestGo responses max_retries (fuel + 1) sleeps n
      = ⟨.err (finalError r), sleeps.reverse, n + 1⟩ := by
  have h200 : ¬ r.status_code = 200 := by omega
  have h401 : ¬ r.status_code = 401 := by omega
  have h404 : ¬ r.status_code = 404 := by omega
  have hret : ¬ _should_retry r.status_code max_retries = true := by
    simp only [_should_retry, Bool.and_eq_true, decide_eq_true_eq]
    intro hcon
    exact absurd hcon.1 (by simp [max_retries])
  simp only [requestGo, hr, h200, h401, h404, hret, if_false, if_true, ite_true, ite_false]
  rfl

theorem requestGo_nonretryable (responses : Nat → ReqOutcome) (a fuel : Nat)
    (sleeps : List ℚ) (n : Nat) (r : HttpResponse)
    (hr : responses a = .http r)
    (h200 : r.status_code ≠ 200) (h401 : r.status_code ≠ 401)
    (h404 : r.status_code ≠ 404) (h429 : r.status_code ≠ 429)
    (h5xx : r.status_code < 500) :
    requestGo responses a (fuel + 1) sleeps n
      = ⟨.err (finalError r), sleeps.reverse, n + 1⟩ := by
  have hret : ¬ _should_retry r.status_code a = true := by
    simp only [_should_retry, Bool.and_eq_true, decide_eq_true_eq, Bool.or_eq_true]
    omega
  simp only [requestGo, hr, h200, h401, h404, hret, if_false, if_true, ite_true, ite_false]
  rfl

/-- **C1.**  For every request sequence whose HTTP responses all have status
429 or ≥ 500, `_request` makes exactly 4 attempts (1 initial + 3 retries,
hence at most 4), sleeping `retry_delay * 2 ^ attempt` seconds between
consecutive attempts — concretely 1s, 2s and 4s — and ends by raising the
typed `ProductiveAPIError` built from the 4th response, only after that
4th attempt. -/
theorem C1_retry_bound_429_5xx (responses : Nat → ReqOutcome)
    (h : ∀ i, i ≤ max_retries →
      ∃ r, responses i = .http r ∧ (r.status_code = 429 ∨ 500 ≤ r.status_code)) :
    (_request responses).attempts = 4 ∧
    (_request responses).sleeps = [backoffDelay 0, backoffDelay 1, backoffDelay 2] ∧
    (_request responses).sleeps = [1, 2, 4] ∧
    ∃ r, responses 3 = .http r ∧
      (_request responses).outcome = .err (finalError r) ∧
      (finalError r).status_code = some r.status_code := by
  obtain ⟨r0, hr0, hs0⟩ := h 0 (by decide)
  obtain ⟨r1, hr1, hs1⟩ := h 1 (by decide)
  obtain ⟨r2, hr2, hs2⟩ := h 2 (by decide)
  obtain ⟨r3, hr3, hs3⟩ := h 3 (by decide)
  have s0 : _request responses = requestGo responses 1 3 [backoffDelay 0] 1 :=
    requestGo_retry_step responses 0 3 [] 0 r0 hr0 hs0 (by decide)
  have s1 : requestGo responses 1 3 [backoffDelay 0] 1
      = requestGo responses 2 2 [backoffDelay 1, backoffDelay 0] 2 :=
    requestGo_retry_step responses 1 2 [backoffDelay 0] 1 r1 hr1 hs1 (by decide)
  have s2 : requestGo responses 2 2 [backoffDelay 1, backoffDelay 0] 2
      = requestGo responses 3 1 [backoffDelay 2, backoffDelay 1, backoffDelay 0] 3 :=
    requestGo_retry_step responses 2 1 [backoffDelay 1, backoffDelay 0] 2 r2 hr2 hs2 (by decide)
  have s3 : requestGo responses 3 1 [backoffDelay 2, backoffDelay 1, backoffDelay 0] 3
      = ⟨.err (finalError r3), [backoffDelay 0, backoffDelay 1, backoffDelay 2], 4⟩ :=
    requestGo_final_retryable responses 0 [backoffDelay 2, backoffDelay 1, backoffDelay 0] 3 r3 hr3 hs3
  have run : _request responses
      = ⟨.err (finalError r3), [backoffDelay 0, backoffDelay 1, backoffDelay 2], 4⟩ :=
    (s0.trans s1).trans (s2.trans s3)
  refine ⟨by rw [run], by rw [run],
    by rw [run]; norm_num [backoffDelay, retry_delay], r3, hr3, by rw [run], rfl⟩

/-- Closed witness for C1: four straight 500 responses yield 4 attempts,
sleeps of 1s, 2s, 4s, and the typed error built from the 4th response. -/
theorem C1_witness :
    (_request (fun _ => .http ⟨500, none, "boom"⟩)).attempts = 4 ∧
    (_request (fun _ => .http ⟨500, none, "boom"⟩)).sleeps = [1, 2, 4] ∧
    (_request (fun _ => .http ⟨500, none, "boom"⟩)).outcome
      = .err (finalError ⟨500, none, "boom"⟩) := by
  have h := C1_retry_bound_429_5xx (fun _ => .http ⟨500, none, "boom"⟩)
    (fun i _ => ⟨⟨500, none, "boom"⟩, rfl, Or.inr (by decide)⟩)
  obtain ⟨ha, _, hs, r, hr, ho, _⟩ := h
  cases hr
  exact ⟨ha, hs, ho⟩

/-- **C2.**  A first response with a 4xx status other than 429 makes
`_request` perform exactly one attempt and fail immediately with no sleep:
401 yields the `UNAUTHORIZED` error, 404 the `NOT_FOUND` error, and any
other such 4xx the error built from the parsed body with default message
`"Server error"` (used when a parsed body lacks `message`) and error code
`"UNKNOWN"` when the body is unparseable (in which case the message is
`"HTTP {status}: {text}"`). -/
theorem C2_non_retryable_4xx (responses : Nat → ReqOutcome) (r : HttpResponse)
    (hr : responses 0 = .http r)
    (hlo : 400 ≤ r.status_code) (hhi : r.status_code < 500)
    (h429 : r.status_code ≠ 429) :
    (_request responses).attempts = 1 ∧
    (_request responses).sleeps = [] ∧
    (r.status_code = 401 →
      (_request responses).outcome
        = .err ⟨.str "Unauthorized: Invalid API token", some 401, some (.str "UNAUTHORIZED")⟩) ∧
    (r.status_code = 404 →
      (_request responses).outcome
        = .err ⟨.str "Resource not found", some 404, some (.str "NOT_FOUND")⟩) ∧
    (r.status_code ≠ 401 → r.status_code ≠ 404 →
      (_request responses).outcome = .err (finalError r) ∧
      (finalError r).status_code = some r.status_code ∧
      (∀ kvs, r.jsonBody = some (.obj kvs) → getKeyO kvs "message" = none →
        (finalError r).message = .str "Server error") ∧
      (r.jsonBody = none →
        (finalError r).error_code = some (.str "UNKNOWN") ∧
        (finalError r).message
          = .str ("HTTP " ++ toString r.status_code ++ ": " ++ r.text))) := by
  have h200 : ¬ r.status_code = 200 := by omega
  by_cases e401 : r.status_code = 401
  · have run : _request responses
        = ⟨.err ⟨.str "Unauthorized: Invalid API token", some 401, some (.str "UNAUTHORIZED")⟩, [], 1⟩ := by
      show requestGo responses 0 (max_retries + 1) [] 0 = _
      simp only [requestGo, hr]
      rw [if_neg h200, if_pos e401]
      rfl
    exact ⟨by rw [run], by rw [run], fun _ => by rw [run],
      fun e404 => by omega, fun hne _ => absurd e401 hne⟩
  · by_cases e404 : r.status_code = 404
    · have run : _request responses
          = ⟨.err ⟨.str "Resource not found", some 404, some (.str "NOT_FOUND")⟩, [], 1⟩ := by
        show requestGo responses 0 (max_retries + 1) [] 0 = _
        simp only [requestGo, hr]
        rw [if_neg h200, if_neg e401, if_pos e404]
        rfl
      exact ⟨by rw [run], by rw [run], fun e => absurd e e401,
        fun _ => by rw [run], fun _ hne => absurd e404 hne⟩
    · have run : _request responses = ⟨.err (finalError r), [], 1⟩ :=
        requestGo_nonretryable responses 0 max_retries [] 0 r hr h200 e401 e404 h429 hhi
      refine ⟨by rw [run], by rw [run], fun e => absurd e e401, fun e => absurd e e404,
        fun _ _ => ⟨by rw [run], rfl, ?_, ?_⟩⟩
      · intro kvs hb hm
        simp [finalError, _parse_error_response, hb, hm, h429]
      · intro hb
        simp [finalError, _parse_error_response, hb]

/-- Closed witness for C2: a single 400 response with an unparseable body
gives one attempt, no sleep, and the typed error with the synthesized
message and `UNKNOWN` code. -/
theorem C2_witness :
    (_request (fun _ => .http ⟨400, none, "bad"⟩)).attempts = 1 ∧
    (_request (fun _ => .http ⟨400, none, "bad"⟩)).sleeps = [] ∧
    (_request (fun _ => .http ⟨400, none, "bad"⟩)).outcome
      = .err ⟨.str "HTTP 400: bad", some 400, some (.str "UNKNOWN")⟩ := by
  have h := C2_non_retryable_4xx (fun _ => .http ⟨400, none, "bad"⟩) ⟨400, none, "bad"⟩
    rfl (by decide) (by decide) (by decide)
  obtain ⟨ha, hs, _, _, hrest⟩ := h
  obtain ⟨ho, _, _, _⟩ := hrest (by decide) (by decide)
  refine ⟨ha, hs, ?_⟩
  rw [ho]
  rfl

theorem requestGo_ok_implies_200 (responses : Nat → ReqOutcome) :
    ∀ fuel a sleeps n v, (requestGo responses a fuel sleeps n).outcome = .ok v →
      ∃ i r, a ≤ i ∧ i < a + fuel ∧ responses i = .http r ∧
        r.status_code = 200 ∧ r.jsonBody = some v := by
  intro fuel
  induction fuel with
  | zero =>
    intro a s n v h
    exact absurd h (by simp [requestGo])
  | succ fuel ih =>
    intro a s n v h
    rcases hra : responses a with msg | r
    · simp only [requestGo, hra] at h
      by_cases hlt : a < max_retries
      · rw [if_pos hlt] at h
        obtain ⟨i, r, hai, hifu, hri, h200, hb⟩ := ih (a + 1) _ _ v h
        exact ⟨i, r, by omega, by omega, hri, h200, hb⟩
      · rw [if_neg hlt] at h
        exact absurd h (by simp)
    · simp only [requestGo, hra] at h
      by_cases h200 : r.status_code = 200
      · rw [if_pos h200] at h
        rcases hb : r.jsonBody with _ | w
        · rw [hb] at h
          exact absurd h (by simp)
        · rw [hb] at h
          simp only [ReqResult.ok.injEq] at h
          exact ⟨a, r, le_refl a, by omega, hra, h200, by rw [hb, h]⟩
      · rw [if_neg h200] at h
        by_cases h401 : r.status_code = 401
        · rw [if_pos h401] at h
          exact absurd h (by simp)
        · rw [if_neg h401] at h
          by_cases h404 : r.status_code = 404
          · rw [if_pos h404] at h
            exact absurd h (by simp)
          · rw [if_neg h404] at h
            by_cases hret : _should_retry r.status_code a = true
            · rw [if_pos hret] at h
              obtain ⟨i, r2, hai, hifu, hri, h200b, hb⟩ := ih (a + 1) _ _ v h
              exact ⟨i, r2, by omega, by omega, hri, h200b, hb⟩
            · rw [if_neg hret] at h
              exact absurd h (by simp)

/-- **C10.**  `_request` never returns a success value for a non-200
status: a first response with status outside `{200, 401, 404, 429}` and
below 500 (201, 204, 3xx, other 4xx, …) fails on the very first attempt
with no sleep, raising the `ProductiveAPIError` carrying that status and
the parsed error body (default message `"Server error"` when a parsed
body lacks `message`, error code `"UNKNOWN"` when the body is
unparseable); and whenever `_request` returns a value, some attempt
received a status-200 response whose parsed JSON body is that value. -/
theorem C10_only_200_returns (responses : Nat → ReqOutcome) :
    (∀ r, responses 0 = .http r → r.status_code ≠ 200 → r.status_code ≠ 401 →
      r.status_code ≠ 404 → r.status_code ≠ 429 → r.status_code < 500 →
      (_request responses).attempts = 1 ∧
      (_request responses).sleeps = [] ∧
      (_request responses).outcome = .err (finalError r) ∧
      (finalError r).status_code = some r.status_code ∧
      (∀ kvs, r.jsonBody = some (.obj kvs) → getKeyO kvs "message" = none →
        (finalError r).message = .str "Server error") ∧
      (r.jsonBody = none → (finalError r).error_code = some (.str "UNKNOWN"))) ∧
    (∀ v, (_request responses).outcome = .ok v →
      ∃ i r, i ≤ max_retries ∧ responses i = .http r ∧
        r.status_code = 200 ∧ r.jsonBody = some v) := by
  constructor
  · intro r hr h200 h401 h404 h429 h5xx
    have run : _request responses = ⟨.err (finalError r), [], 1⟩ :=
      requestGo_nonretryable responses 0 max_retries [] 0 r hr h200 h401 h404 h429 h5xx
    refine ⟨by rw [run], by rw [run], by rw [run], rfl, ?_, ?_⟩
    · intro kvs hb hm
      simp [finalError, _parse_error_response, hb, hm, h429]
    · intro hb
      simp [finalError, _parse_error_response, hb]
  · intro v h
    obtain ⟨i, r, _, hifu, hri, h200, hb⟩ :=
      requestGo_ok_implies_200 responses (max_retries + 1) 0 [] 0 v h
    exact ⟨i, r, by omega, hri, h200, hb⟩

/-- Closed witness for C10: a single 204 response (a status the spec does
not enumerate) fails on the first attempt with status 204 and code
`UNKNOWN`; and a 200 run returns exactly the body of a 200 attempt. -/
theorem C10_witness :
    ((_request (fun _ => .http ⟨204, none, ""⟩)).attempts = 1 ∧
      (_request (fun _ => .http ⟨204, none, ""⟩)).outcome
        = .err ⟨.str "HTTP 204: ", some 204, some (.str "UNKNOWN")⟩) ∧
    (∃ i r, i ≤ max_retries ∧
      (fun _ => ReqOutcome.http (⟨200, some .null, "null"⟩ : HttpResponse)) i = .http r ∧
      r.status_code = 200 ∧ r.jsonBody = some .null) := by
  constructor
  · have h := (C10_only_200_returns (fun _ => .http ⟨204, none, ""⟩)).1
      ⟨204, none, ""⟩ rfl (by decide) (by decide) (by decide) (by decide) (by decide)
    obtain ⟨ha, _, ho, _, _, _⟩ := h
    refine ⟨ha, ?_⟩
    rw [ho]
    rfl
  · exact (C10_only_200_returns (fun _ => .http ⟨200, some .null, "null"⟩)).2 .null rfl

/-- A task document whose only attribute is deny-listed for `tasks`:
`{"data": {"type": "tasks", "attributes": {"email_key": "k"}}}`. -/
def taskDocDenyOnlyAttr : JVal :=
  .obj (.cons "data" (.obj (.cons "type" (.str "tasks")
    (.cons "attributes" (.obj (.cons "email_key" (.str "k") .nil)) .nil))) .nil)

/-- **C4.**  Evaluation at the failing input: pruning a resource object
whose only attribute is removed by the type filter does NOT drop the
resulting empty `attributes` mapping — `remove_null_and_empty` checks
emptiness before applying `_filter_attributes`, so the output retains
`"attributes": {}`, contrary to the claim (and to the function's own
docstring, which promises that empty dicts are removed). -/
theorem C4_empty_filtered_attributes_retained :
    remove_null_and_empty taskDocDenyOnlyAttr
      = .obj (.cons "data" (.obj (.cons "type" (.str "tasks")
          (.cons "attributes" (.obj .nil) .nil))) .nil) ∧
    (∀ dkvs, getKeyO (.cons "data" (.obj dkvs) .nil : JObj) "data" = some (.obj dkvs)) ∧
    getKeyO (.cons "type" (.str "tasks") (.cons "attributes" (.obj .nil) .nil) : JObj)
      "attributes" = some (.obj .nil) := by
  exact ⟨by decide, fun dkvs => by simp [getKeyO], by decide⟩

/-- A task document with `type`, `id` and a single deny-listed attribute:
`{"data": {"type": "tasks", "id": "1", "attributes": {"email_key": "k"}}}`. -/
def taskDocDenyOnlyAttrWithId : JVal :=
  .obj (.cons "data" (.obj (.cons "type" (.str "tasks")
    (.cons "id" (.str "1")
    (.cons "attributes" (.obj (.cons "email_key" (.str "k") .nil)) .nil)))) .nil)

/-- **C3.**  Evaluation at the failing input: `filter_response` is not
idempotent.  The first pass leaves `"attributes": {}` (emptied by the
type filter only after the emptiness check) and the second pass removes
it, so `filter(filter(x)) ≠ filter(x)` on this already-filtered
document. -/
theorem C3_filter_response_not_idempotent :
    filter_response taskDocDenyOnlyAttrWithId
      = some (.obj (.cons "data" (.obj (.cons "type" (.str "tasks")
          (.cons "id" (.str "1")
          (.cons "attributes" (.obj .nil)
          (.cons "webapp_url" (.str "https://app.productive.io/12345/tasks/1") .nil))))) .nil)) ∧
    (filter_response taskDocDenyOnlyAttrWithId).bind filter_response
      = some (.obj (.cons "data" (.obj (.cons "type" (.str "tasks")
          (.cons "id" (.str "1")
          (.cons "webapp_url" (.str "https://app.productive.io/12345/tasks/1") .nil)))) .nil)) ∧
    (filter_response taskDocDenyOnlyAttrWithId).bind filter_response
      ≠ filter_response taskDocDenyOnlyAttrWithId := by
  refine ⟨by decide, by decide, by decide⟩

/-- A task-list document whose task item has a non-mapping `attributes`:
`{"data": [{"type": "tasks", "attributes": "x"}]}`. -/
def taskListDocStrAttr : JVal :=
  .obj (.cons "data" (.arr (.cons (.obj (.cons "type" (.str "tasks")
    (.cons "attributes" (.str "x") .nil))) .nil)) .nil)

/-- The analogous page-list document:
`{"data": [{"type": "pages", "attributes": "x"}]}`. -/
def pageListDocStrAttr : JVal :=
  .obj (.cons "data" (.arr (.cons (.obj (.cons "type" (.str "pages")
    (.cons "attributes" (.str "x") .nil))) .nil)) .nil)

/-- **C8.**  Evaluation at the failing input: `filter_task_list_response`
raises (`.items()` on the string `attributes` value — modelled as `none`)
instead of degrading to passthrough, refuting the never-raises claim;
`filter_page_list_response`, which guards the same spot with
`isinstance(attrs, dict)`, tolerates the analogous document, and a
non-mapping response does pass through unchanged. -/
theorem C8_task_list_filter_raises :
    filter_task_list_response taskListDocStrAttr = none ∧
    filter_page_list_response pageListDocStrAttr
      = some (.obj (.cons "data"
          (.arr (.cons (.obj (.cons "type" (.str "pages") .nil)) .nil)) .nil)) ∧
    filter_task_list_response (.str "already-filtered") = some (.str "already-filtered") ∧
    remove_null_and_empty (.num 7) = .num 7 := by
  refine ⟨by decide, by decide, by decide, by decide⟩


@[induction_eliminator]
theorem jarrSpineInd {motive : JArr → Prop} (nil : motive .nil)
    (cons : ∀ v rest, motive rest → motive (.cons v rest)) : ∀ xs, motive xs
  | .nil => nil
  | .cons v rest => cons v rest (jarrSpineInd nil cons rest)

@[induction_eliminator]
theorem jobjSpineInd {motive : JObj → Prop} (nil : motive .nil)
    (cons : ∀ k v rest, motive rest → motive (.cons k v rest)) : ∀ o, motive o
  | .nil => nil
  | .cons k v rest => cons k v rest (jobjSpineInd nil cons rest)

theorem rnArr_toList (xs : JArr) :
    (rnArr xs).toList
      = (xs.toList.map remove_null_and_empty).filter (fun v => !isEmptyLike v) := by
  induction xs with
  | nil => rfl
  | cons v rest ih =>
    simp only [rnArr, JArr.toList, List.map, List.filter_cons]
    by_cases h : isEmptyLike (remove_null_and_empty v) = true
    · simp [h, ih]
    · simp only [Bool.not_eq_true] at h
      simp [h, ih, JArr.toList]

theorem rnObj_cons_generic (dropOrg : Bool) (whole : JObj) (k : String) (v : JVal)
    (rest : JObj)
    (horg : dropOrg = true → k ≠ "organization") (hlinks : k ≠ "links")
    (hrel : k ≠ "relationships") (hattr : k ≠ "attributes") (hmeta : k ≠ "meta") :
    rnObj dropOrg whole (.cons k v rest)
      = if isEmptyLike (remove_null_and_empty v) = true then rnObj dropOrg whole rest
        else .cons k (remove_null_and_empty v) (rnObj dropOrg whole rest) := by
  have hdrop : ¬ (dropOrg && decide (k = "organization")) = true := by
    intro hc
    simp only [Bool.and_eq_true, decide_eq_true_eq] at hc
    exact horg hc.1 hc.2
  have hrelf : decide (k = "relationships") = false := by simpa using hrel
  have hattrf : decide (k = "attributes") = false := by simpa using hattr
  have hmetaf : decide (k = "meta") = false := by simpa using hmeta
  rw [rnObj.eq_def]
  dsimp only
  rw [if_neg hdrop, if_neg (by simpa using hlinks)]
  simp only [hrelf, hattrf, hmetaf]
  cases v <;> dsimp only [remove_null_and_empty]
theorem rnObj_cons_shape (dropOrg : Bool) (whole : JObj) (k : String) (v : JVal)
    (rest : JObj) :
    rnObj dropOrg whole (.cons k v rest) = rnObj dropOrg whole rest ∨
      ∃ x, rnObj dropOrg whole (.cons k v rest) = .cons k x (rnObj dropOrg whole rest) := by
  rw [rnObj.eq_def]
  dsimp only
  by_cases h1 : (dropOrg && decide (k = "organization")) = true
  · rw [if_pos h1]
    exact Or.inl rfl
  · rw [if_neg h1]
    by_cases h2 : k = "links"
    · rw [if_pos (by simpa using h2)]
      exact Or.inl rfl
    · rw [if_neg (by simpa using h2)]
      split
      · exact Or.inl rfl
      · split
        · split
          · exact Or.inl rfl
          · exact Or.inr ⟨_, rfl⟩
        · exact Or.inr ⟨_, rfl⟩

theorem rnObj_mem_preserved (dropOrg : Bool) (whole : JObj) (l : JObj)
    (k : String) (v : JVal)
    (hmem : (k, v) ∈ l.toList)
    (horg : dropOrg = true → k ≠ "organization") (hlinks : k ≠ "links")
    (hrel : k ≠ "relationships") (hattr : k ≠ "attributes") (hmeta : k ≠ "meta")
    (hne : isEmptyLike (remove_null_and_empty v) = false) :
    (k, remove_null_and_empty v) ∈ (rnObj dropOrg whole l).toList := by
  induction l with
  | nil => simp [JObj.toList] at hmem
  | cons k2 v2 rest ih =>
    simp only [JObj.toList, List.mem_cons] at hmem
    rcases hmem with heq | hmem
    · obtain ⟨rfl, rfl⟩ := Prod.mk.injEq .. ▸ heq
      rw [rnObj_cons_generic dropOrg whole k v rest horg hlinks hrel hattr hmeta,
        if_neg (by simp [hne])]
      simp [JObj.toList]
    · have hrec := ih hmem
      rcases rnObj_cons_shape dropOrg whole k2 v2 rest with hsh | ⟨x, hsh⟩
      · rw [hsh]
        exact hrec
      · rw [hsh]
        simp only [JObj.toList, List.mem_cons]
        exact Or.inr hrec

theorem rnObj_keys_subset (dropOrg : Bool) (whole : JObj) (l : JObj) :
    (rnObj dropOrg whole l).keys ⊆ l.keys := by
  induction l with
  | nil => simp [rnObj, JObj.keys, JObj.toList]
  | cons k2 v2 rest ih =>
    rcases rnObj_cons_shape dropOrg whole k2 v2 rest with hsh | ⟨x, hsh⟩
    · rw [hsh]
      intro a ha
      simp only [JObj.keys, JObj.toList, List.map, List.mem_cons]
      exact Or.inr (ih ha)
    · rw [hsh]
      intro a ha
      simp only [JObj.keys, JObj.toList, List.map, List.mem_cons] at ha ⊢
      rcases ha with h | h
      · exact Or.inl h
      · exact Or.inr (ih h)

theorem _filter_attributes_mem_preserved (l : JObj) (t : Option JVal)
    (k : String) (v : JVal)
    (hmem : (k, v) ∈ l.toList)
    (hdeny : ¬ (remove_fields t).contains k)
    (hhtml : ¬ (html_fields t).contains k) :
    (k, v) ∈ (_filter_attributes l t).toList := by
  induction l with
  | nil => simp [JObj.toList] at hmem
  | cons k2 v2 rest ih =>
    simp only [JObj.toList, List.mem_cons] at hmem
    rcases hmem with heq | hmem
    · obtain ⟨rfl, rfl⟩ := Prod.mk.injEq .. ▸ heq
      simp only [_filter_attributes]
      rw [if_neg hdeny]
      simp only [JObj.toList, List.mem_cons]
      left
      rw [if_neg hhtml]
    · simp only [_filter_attributes]
      by_cases hd : (remove_fields t).contains k2
      · rw [if_pos hd]
        exact ih hmem
      · rw [if_neg hd]
        simp only [JObj.toList, List.mem_cons]
        exact Or.inr (ih hmem)

theorem _filter_attributes_keys_subset (l : JObj) (t : Option JVal) :
    (_filter_attributes l t).keys ⊆ l.keys := by
  induction l with
  | nil => simp [_filter_attributes, JObj.keys, JObj.toList]
  | cons k2 v2 rest ih =>
    simp only [_filter_attributes]
    by_cases hd : (remove_fields t).contains k2
    · rw [if_pos hd]
      intro a ha
      simp only [JObj.keys, JObj.toList, List.map, List.mem_cons]
      exact Or.inr (ih ha)
    · rw [if_neg hd]
      intro a ha
      simp only [JObj.keys, JObj.toList, List.map, List.mem_cons] at ha ⊢
      rcases ha with h | h
      · exact Or.inl h
      · exact Or.inr (ih h)

theorem eraseKey_mem_preserved (l : JObj) (s k : String) (v : JVal)
    (hmem : (k, v) ∈ l.toList) (hne : k ≠ s) :
    (k, v) ∈ (eraseKey l s).toList := by
  induction l with
  | nil => simp [JObj.toList] at hmem
  | cons k2 v2 rest ih =>
    simp only [JObj.toList, List.mem_cons] at hmem
    simp only [eraseKey]
    rcases hmem with heq | hmem
    · obtain ⟨rfl, rfl⟩ := Prod.mk.injEq .. ▸ heq
      rw [if_neg hne]
      simp [JObj.toList]
    · by_cases he : k2 = s
      · rw [if_pos he]
        exact ih hmem
      · rw [if_neg he]
        simp only [JObj.toList, List.mem_cons]
        exact Or.inr (ih hmem)

theorem _clean_meta_mem_preserved (m : JObj) (k : String) (v : JVal)
    (hmem : (k, v) ∈ m.toList)
    (hinc : k ≠ "included") (hset : k ≠ "settings") :
    (k, v) ∈ (_clean_meta_object m).toList := by
  unfold _clean_meta_object
  by_cases hif : getKeyO m "included" = some (.bool false)
  · rw [if_pos hif]
    exact eraseKey_mem_preserved _ _ _ _ (eraseKey_mem_preserved _ _ _ _ hmem hinc) hset
  · rw [if_neg hif]
    exact eraseKey_mem_preserved _ _ _ _ hmem hset

/-- **C9.**  The pruner drops a dictionary entry or list element only when
its cleaned value is exactly `None`, `""`, `{}` or `[]`: the emptiness
test accepts nothing else (in particular neither `0` nor `False`), list
cleaning is exactly map-then-filter under that test, ordinary dictionary
entries (keys without special handling) with non-empty cleaned values are
kept at every depth, and `0`-valued task attributes such as `worked_time`
and `false`-valued ones such as `closed` survive the `tasks` attribute
filter, as do `0`-valued meta counters under the meta cleanup. -/
theorem C9_zero_and_false_survive :
    (∀ v : JVal, isEmptyLike v = true ↔
      (v = .null ∨ v = .str "" ∨ v = .obj .nil ∨ v = .arr .nil)) ∧
    isEmptyLike (.num 0) = false ∧ isEmptyLike (.bool false) = false ∧
    (∀ xs : JArr, (rnArr xs).toList
      = (xs.toList.map remove_null_and_empty).filter (fun v => !isEmptyLike v)) ∧
    (∀ (dropOrg : Bool) (whole l : JObj) (k : String) (v : JVal),
      (k, v) ∈ l.toList →
      (dropOrg = true → k ≠ "organization") → k ≠ "links" →
      k ≠ "relationships" → k ≠ "attributes" → k ≠ "meta" →
      isEmptyLike (remove_null_and_empty v) = false →
      (k, remove_null_and_empty v) ∈ (rnObj dropOrg whole l).toList) ∧
    (∀ (n : Int), remove_null_and_empty (.num n) = .num n) ∧
    (∀ (b : Bool), remove_null_and_empty (.bool b) = .bool b) ∧
    (∀ (l : JObj) (k : String) (v : JVal),
      (k, v) ∈ l.toList →
      ¬ (remove_fields (some (.str "tasks"))).contains k →
      ¬ (html_fields (some (.str "tasks"))).contains k →
      (k, v) ∈ (_filter_attributes l (some (.str "tasks"))).toList) ∧
    (remove_fields (some (.str "tasks"))).contains "worked_time" = false ∧
    (remove_fields (some (.str "tasks"))).contains "closed" = false ∧
    (∀ (m : JObj) (k : String) (v : JVal),
      (k, v) ∈ m.toList → k ≠ "included" → k ≠ "settings" →
      (k, v) ∈ (_clean_meta_object m).toList) := by
  refine ⟨?_, by decide, by decide, rnArr_toList,
    fun d w l k v h1 h2 h3 h4 h5 h6 h7 => rnObj_mem_preserved d w l k v h1 h2 h3 h4 h5 h6 h7,
    fun n => rfl, fun b => rfl,
    fun l k v h1 h2 h3 => _filter_attributes_mem_preserved l _ k v h1 h2 h3,
    by decide, by decide,
    fun m k v h1 h2 h3 => _clean_meta_mem_preserved m k v h1 h2 h3⟩
  intro v
  cases v with
  | null => simp [isEmptyLike]
  | bool b => simp [isEmptyLike]
  | num n => simp [isEmptyLike]
  | str s => simp [isEmptyLike]
  | arr a => cases a <;> simp [isEmptyLike]
  | obj o => cases o <;> simp [isEmptyLike]

/-- Closed witness for C9: `worked_time = 0` and `closed = false` survive
pruning and the task attribute filter, and `0`/`False` survive list
cleaning while `None`/`""`/`{}`/`[]` are dropped. -/
theorem C9_witness :
    ("worked_time", JVal.num 0) ∈
      (rnObj false (.cons "worked_time" (.num 0) (.cons "closed" (.bool false) .nil))
        (.cons "worked_time" (.num 0) (.cons "closed" (.bool false) .nil))).toList ∧
    ("worked_time", JVal.num 0) ∈
      (_filter_attributes (.cons "worked_time" (.num 0) .nil) (some (.str "tasks"))).toList ∧
    (rnArr (.cons (.num 0) (.cons (.bool false) (.cons .null
        (.cons (.str "") (.cons (.obj .nil) (.cons (.arr .nil) .nil))))))).toList
      = [.num 0, .bool false] := by
  refine ⟨?_, ?_, ?_⟩
  · have h := C9_zero_and_false_survive.2.2.2.2.1 false
      (.cons "worked_time" (.num 0) (.cons "closed" (.bool false) .nil))
      (.cons "worked_time" (.num 0) (.cons "closed" (.bool false) .nil))
      "worked_time" (.num 0) (by simp [JObj.toList])
      (by intro h; exact absurd h (by decide)) (by decide) (by decide) (by decide)
      (by decide) (by decide)
    simpa using h
  · have h := C9_zero_and_false_survive.2.2.2.2.2.2.2.1
      (.cons "worked_time" (.num 0) .nil) "worked_time" (.num 0)
      (by simp [JObj.toList]) (by decide) (by decide)
    exact h
  · have h := C9_zero_and_false_survive.2.2.2.1
      (.cons (.num 0) (.cons (.bool false) (.cons .null
        (.cons (.str "") (.cons (.obj .nil) (.cons (.arr .nil) .nil))))))
    rw [h]
    decide

theorem getKeyO_setKeyO_same (kvs : JObj) (k : String) (v : JVal) :
    getKeyO (setKeyO kvs k v) k = some v := by
  induction kvs with
  | nil => simp [setKeyO, getKeyO]
  | cons k2 v2 rest ih =>
    simp only [setKeyO]
    by_cases he : k2 = k
    · rw [if_pos he]
      simp [getKeyO, he]
    · rw [if_neg he]
      simp only [getKeyO]
      rw [if_neg he]
      exact ih

theorem getKeyO_setKeyO_other (kvs : JObj) (k k2 : String) (v : JVal)
    (hne : k2 ≠ k) : getKeyO (setKeyO kvs k v) k2 = getKeyO kvs k2 := by
  induction kvs with
  | nil =>
    simp only [setKeyO, getKeyO]
    rw [if_neg (fun h => hne h.symm)]
  | cons k3 v3 rest ih =>
    simp only [setKeyO]
    by_cases he : k3 = k
    · rw [if_pos he]
      simp only [getKeyO]
      rw [if_neg (fun h => hne (h.symm.trans he)), if_neg (fun h => hne (h.symm.trans he))]
    · rw [if_neg he]
      simp only [getKeyO]
      by_cases h3 : k3 = k2
      · rw [if_pos h3, if_pos h3]
      · rw [if_neg h3, if_neg h3]
        exact ih

theorem setKeyO_mem_other (kvs : JObj) (k k2 : String) (v v2 : JVal)
    (hmem : (k2, v2) ∈ kvs.toList) (hne : k2 ≠ k) :
    (k2, v2) ∈ (setKeyO kvs k v).toList := by
  induction kvs with
  | nil => simp [JObj.toList] at hmem
  | cons k3 v3 rest ih =>
    simp only [JObj.toList, List.mem_cons] at hmem
    simp only [setKeyO]
    rcases hmem with heq | hmem
    · obtain ⟨rfl, rfl⟩ := Prod.mk.injEq .. ▸ heq
      rw [if_neg hne]
      simp [JObj.toList]
    · by_cases he : k3 = k
      · rw [if_pos he]
        simp only [JObj.toList, List.mem_cons]
        exact Or.inr hmem
      · rw [if_neg he]
        simp only [JObj.toList, List.mem_cons]
        exact Or.inr (ih hmem)

theorem addWebappUrlO_pos (kvs : JObj) (t i : JVal)
    (ht : getKeyO kvs "type" = some t) (hi : getKeyO kvs "id" = some i)
    (htt : truthy t = true) (hti : truthy i = true) :
    addWebappUrlO kvs
      = setKeyO kvs "webapp_url" (.str (get_webapp_url (pyStr t) (pyStr i))) := by
  unfold addWebappUrlO
  rw [ht]
  rw [hi]
  simp only [Option.getD_some]
  rw [if_pos (by rw [htt, hti]; rfl)]

theorem addWebappUrlO_neg (kvs : JObj)
    (h : ¬ (truthy ((getKeyO kvs "type").getD .null) = true ∧
            truthy ((getKeyO kvs "id").getD .null) = true)) :
    addWebappUrlO kvs = kvs := by
  unfold addWebappUrlO
  rw [if_neg]
  intro hc
  rw [Bool.and_eq_true] at hc
  exact h hc

theorem addWebappUrlO_get_other (kvs : JObj) (k : String) (hk : k ≠ "webapp_url") :
    getKeyO (addWebappUrlO kvs) k = getKeyO kvs k := by
  unfold addWebappUrlO
  split
  · exact getKeyO_setKeyO_other _ _ _ _ hk
  · rfl

theorem addWebappUrlO_mem_other (kvs : JObj) (k : String) (v : JVal)
    (hmem : (k, v) ∈ kvs.toList) (hk : k ≠ "webapp_url") :
    (k, v) ∈ (addWebappUrlO kvs).toList := by
  unfold addWebappUrlO
  split
  · exact setKeyO_mem_other _ _ _ _ _ hmem hk
  · exact hmem

theorem enrichItemO_fields (inc : JVal) (c d : JObj)
    (h : enrichItemO inc c = some d) :
    getKeyO d "type" = getKeyO c "type" ∧
    getKeyO d "id" = getKeyO c "id" ∧
    getKeyO d "webapp_url" = getKeyO (addWebappUrlO c) "webapp_url" := by
  unfold enrichItemO at h
  by_cases hty : (getKeyO (addWebappUrlO c) "type").getD .null = .str "tasks"
  · rw [if_pos hty] at h
    rcases hext : _extract_workflow_status_name (.obj (addWebappUrlO c)) inc with _ | name
    · rw [hext] at h
      exact absurd h (by simp)
    · rw [hext] at h
      dsimp only at h
      by_cases hcond : (truthy name && hasKeyO (addWebappUrlO c) "attributes") = true
      · rw [if_pos hcond] at h
        rcases hat : getKeyO (addWebappUrlO c) "attributes" with _ | av
        · rw [hat] at h
          exact absurd h (by simp)
        · rcases av with _ | b | n | s | a | akvs
          · rw [hat] at h
            exact absurd h (by simp)
          · rw [hat] at h
            exact absurd h (by simp)
          · rw [hat] at h
            exact absurd h (by simp)
          · rw [hat] at h
            exact absurd h (by simp)
          · rw [hat] at h
            exact absurd h (by simp)
          · rw [hat] at h
            dsimp only at h
            simp only [Option.some.injEq] at h
            subst h
            refine ⟨?_, ?_, ?_⟩
            · rw [getKeyO_setKeyO_other _ _ _ _ (by decide)]
              exact addWebappUrlO_get_other c "type" (by decide)
            · rw [getKeyO_setKeyO_other _ _ _ _ (by decide)]
              exact addWebappUrlO_get_other c "id" (by decide)
            · rw [getKeyO_setKeyO_other _ _ _ _ (by decide)]
      · rw [if_neg hcond] at h
        simp only [Option.some.injEq] at h
        subst h
        exact ⟨addWebappUrlO_get_other c "type" (by decide),
          addWebappUrlO_get_other c "id" (by decide), rfl⟩
  · rw [if_neg hty] at h
    simp only [Option.some.injEq] at h
    subst h
    exact ⟨addWebappUrlO_get_other c "type" (by decide),
      addWebappUrlO_get_other c "id" (by decide), rfl⟩

theorem filter_response_data_obj (x : JVal) (ykvs dkvs : JObj)
    (hy : filter_response x = some (.obj ykvs))
    (hdata : getKeyO ykvs "data" = some (.obj dkvs)) :
    ∃ (fkvs ikvs : JObj) (inc : JVal),
      remove_null_and_empty x = .obj fkvs ∧
      getKeyO fkvs "data" = some (.obj ikvs) ∧
      enrichItemO inc ikvs = some dkvs ∧
      ykvs = setKeyO fkvs "data" (.obj dkvs) := by
  rw [filter_response.eq_def] at hy
  dsimp only at hy
  rcases hrn : remove_null_and_empty x with _ | b | n | s | a | fkvs <;> rw [hrn] at hy <;>
    dsimp only at hy
  · exact absurd hy (by simp)
  · exact absurd hy (by simp)
  · exact absurd hy (by simp)
  · exact absurd hy (by simp)
  · exact absurd hy (by simp)
  · by_cases hhk : hasKeyO fkvs "data" = true
    · rw [if_pos hhk] at hy
      rcases hgd : getKeyO fkvs "data" with _ | v
      · rw [hasKeyO, hgd] at hhk
        exact absurd hhk (by simp)
      · rcases v with _ | b | nv | s | items | ikvs <;> rw [hgd] at hy <;> dsimp only at hy
        · simp only [Option.some.injEq, JVal.obj.injEq] at hy
          subst hy
          rw [hgd] at hdata
          exact absurd hdata (by simp)
        · simp only [Option.some.injEq, JVal.obj.injEq] at hy
          subst hy
          rw [hgd] at hdata
          exact absurd hdata (by simp)
        · simp only [Option.some.injEq, JVal.obj.injEq] at hy
          subst hy
          rw [hgd] at hdata
          exact absurd hdata (by simp)
        · simp only [Option.some.injEq, JVal.obj.injEq] at hy
          subst hy
          rw [hgd] at hdata
          exact absurd hdata (by simp)
        · obtain ⟨l, hel, heq⟩ := Option.map_eq_some'.mp hy
          simp only [JVal.obj.injEq] at heq
          subst heq
          rw [getKeyO_setKeyO_same] at hdata
          exact absurd hdata (by simp)
        · obtain ⟨d, he, heq⟩ := Option.map_eq_some'.mp hy
          simp only [JVal.obj.injEq] at heq
          subst heq
          rw [getKeyO_setKeyO_same] at hdata
          simp only [Option.some.injEq, JVal.obj.injEq] at hdata
          subst hdata
          exact ⟨fkvs, ikvs, _, rfl, hgd, he, rfl⟩
    · rw [if_neg hhk] at hy
      simp only [Option.some.injEq, JVal.obj.injEq] at hy
      subst hy
      rw [hasKeyO, hdata] at hhk
      exact absurd (rfl : (some (JVal.obj dkvs)).isSome = true) hhk

/-- **C5.**  `webapp_url` enrichment: when a resource object carries truthy
`type` and `id`, `_add_webapp_url` sets `webapp_url` to
`https://app.productive.io/{organization}/{type}/{id}` and in particular
the single resource object under `data` in a `filter_response` output
carries exactly that URL; when either field is missing or falsy, the item
is returned untouched (no `webapp_url` is attached and no `type`/`id`
pair is invented — enrichment never alters `type` or `id`). -/
theorem C5_webapp_url_enrichment :
    (∀ (kvs : JObj) (t i : JVal),
      getKeyO kvs "type" = some t → getKeyO kvs "id" = some i →
      truthy t = true → truthy i = true →
      addWebappUrlO kvs = setKeyO kvs "webapp_url"
        (.str ("https://app.productive.io/" ++ organization ++ "/" ++ pyStr t ++ "/" ++ pyStr i)) ∧
      getKeyO (addWebappUrlO kvs) "webapp_url"
        = some (.str (get_webapp_url (pyStr t) (pyStr i)))) ∧
    (∀ kvs : JObj,
      ¬ (truthy ((getKeyO kvs "type").getD .null) = true ∧
         truthy ((getKeyO kvs "id").getD .null) = true) →
      addWebappUrlO kvs = kvs) ∧
    (∀ (inc : JVal) (c d : JObj), enrichItemO inc c = some d →
      getKeyO d "type" = getKeyO c "type" ∧ getKeyO d "id" = getKeyO c "id") ∧
    (∀ (x : JVal) (ykvs dkvs : JObj) (t i : JVal),
      filter_response x = some (.obj ykvs) →
      getKeyO ykvs "data" = some (.obj dkvs) →
      getKeyO dkvs "type" = some t → getKeyO dkvs "id" = some i →
      truthy t = true → truthy i = true →
      getKeyO dkvs "webapp_url" = some (.str (get_webapp_url (pyStr t) (pyStr i)))) := by
  refine ⟨?_, addWebappUrlO_neg, ?_, ?_⟩
  · intro kvs t i ht hi htt hti
    have hp := addWebappUrlO_pos kvs t i ht hi htt hti
    exact ⟨hp, by rw [hp, getKeyO_setKeyO_same]⟩
  · intro inc c d h
    have hf := enrichItemO_fields inc c d h
    exact ⟨hf.1, hf.2.1⟩
  · intro x ykvs dkvs t i hy hdata ht hi htt hti
    obtain ⟨fkvs, ikvs, inc, hrn, hgd, he, hset⟩ := filter_response_data_obj x ykvs dkvs hy hdata
    have hf := enrichItemO_fields inc ikvs dkvs he
    have hct : getKeyO ikvs "type" = some t := by rw [← hf.1]; exact ht
    have hci : getKeyO ikvs "id" = some i := by rw [← hf.2.1]; exact hi
    rw [hf.2.2, addWebappUrlO_pos ikvs t i hct hci htt hti, getKeyO_setKeyO_same]

/-- Closed witness for C5: a `projects` resource with `type` and `id`
present receives `webapp_url = https://app.productive.io/12345/projects/7`
through `filter_response`, while an item missing `id` passes through
`_add_webapp_url` unchanged. -/
theorem C5_witness :
    getKeyO (.cons "type" (.str "projects") (.cons "id" (.str "7")
        (.cons "attributes" (.obj (.cons "name" (.str "A") .nil))
        (.cons "webapp_url" (.str "https://app.productive.io/12345/projects/7") .nil))))
      "webapp_url" = some (.str (get_webapp_url (pyStr (.str "projects")) (pyStr (.str "7")))) ∧
    addWebappUrlO (.cons "type" (.str "tasks") .nil) = .cons "type" (.str "tasks") .nil := by
  constructor
  · exact (C5_webapp_url_enrichment.2.2.2
      (.obj (.cons "data" (.obj (.cons "type" (.str "projects") (.cons "id" (.str "7")
        (.cons "attributes" (.obj (.cons "name" (.str "A") .nil)) .nil)))) .nil))
      (.cons "data" (.obj (.cons "type" (.str "projects") (.cons "id" (.str "7")
        (.cons "attributes" (.obj (.cons "name" (.str "A") .nil))
        (.cons "webapp_url" (.str "https://app.productive.io/12345/projects/7") .nil))))) .nil)
      (.cons "type" (.str "projects") (.cons "id" (.str "7")
        (.cons "attributes" (.obj (.cons "name" (.str "A") .nil))
        (.cons "webapp_url" (.str "https://app.productive.io/12345/projects/7") .nil))))
      (.str "projects") (.str "7")
      (by decide) (by decide) (by decide) (by decide) (by decide) (by decide))
  · exact C5_webapp_url_enrichment.2.1 (.cons "type" (.str "tasks") .nil) (by decide)

/-- One step of the `get_task` fill-in loop: default the field `k` to `0`
when missing or `None`. -/
def fillStep (a : JObj) (k : String) : JObj :=
  if getKeyO a k = none || getKeyO a k = some .null then setKeyO a k (.num 0) else a

theorem fillTimeFields_eq (a : JObj) :
    fillTimeFields a
      = fillStep (fillStep (fillStep (fillStep a "initial_estimate")
          "worked_time") "billable_time") "remaining_time" := rfl

theorem fillStep_get_missing (a : JObj) (k : String)
    (h : getKeyO a k = none ∨ getKeyO a k = some .null) :
    getKeyO (fillStep a k) k = some (.num 0) := by
  unfold fillStep
  rw [if_pos (by rcases h with h | h <;> simp [h])]
  exact getKeyO_setKeyO_same a k (.num 0)

theorem fillStep_get_present (a : JObj) (k : String) (v : JVal)
    (h : getKeyO a k = some v) (hv : v ≠ .null) :
    getKeyO (fillStep a k) k = some v := by
  unfold fillStep
  rw [if_neg (by simp [h, hv])]
  exact h

theorem fillStep_get_other (a : JObj) (k k2 : String) (hne : k2 ≠ k) :
    getKeyO (fillStep a k) k2 = getKeyO a k2 := by
  unfold fillStep
  split
  · exact getKeyO_setKeyO_other a k k2 (.num 0) hne
  · rfl

theorem ensure_time_fields_eq (fkvs dkvs akvs : JObj)
    (hd : getKeyO fkvs "data" = some (.obj dkvs))
    (ha : getKeyO dkvs "attributes" = some (.obj akvs)) :
    ensure_time_fields (.obj fkvs)
      = some (.obj (setKeyO fkvs "data" (.obj (setKeyO dkvs "attributes"
          (.obj (fillTimeFields akvs)))))) := by
  unfold ensure_time_fields
  have h1 : pyContains (.obj fkvs) "data" = some true := by
    simp [pyContains, hasKeyO, hd]
  rw [h1]
  dsimp only
  rw [hd]
  simp only [Option.getD_some]
  have h2 : pyContains (.obj dkvs) "attributes" = some true := by
    simp [pyContains, hasKeyO, ha]
  rw [h2]
  dsimp only
  rw [ha]

/-- A task document whose single attribute prunes away entirely:
`{"data": {"type": "tasks", "id": "1", "attributes": {"description": ""}}}`. -/
def taskDocEmptyDescription : JVal :=
  .obj (.cons "data" (.obj (.cons "type" (.str "tasks")
    (.cons "id" (.str "1")
    (.cons "attributes" (.obj (.cons "description" (.str "") .nil)) .nil)))) .nil)

/-- **C6, counterexample.**  The claim says the four time-tracking fields
are *always* present after `get_task`; but when the filtered response
retains no `attributes` mapping (here it is pruned away entirely), the
fill-in guard `"attributes" in filtered["data"]` skips the defaulting and
the result carries none of the four fields. -/
theorem C6_counterexample_no_attributes :
    get_task_postprocess taskDocEmptyDescription
      = some (.obj (.cons "data" (.obj (.cons "type" (.str "tasks")
          (.cons "id" (.str "1")
          (.cons "webapp_url" (.str "https://app.productive.io/12345/tasks/1") .nil)))) .nil)) ∧
    getKeyO (.cons "type" (.str "tasks") (.cons "id" (.str "1")
        (.cons "webapp_url" (.str "https://app.productive.io/12345/tasks/1") .nil)) : JObj)
      "worked_time" = none ∧
    getKeyO (.cons "type" (.str "tasks") (.cons "id" (.str "1")
        (.cons "webapp_url" (.str "https://app.productive.io/12345/tasks/1") .nil)) : JObj)
      "attributes" = none := by
  refine ⟨by decide, by decide, by decide⟩

/-- **C6, amended.**  Whenever the filtered single-task document retains a
`data` mapping with an `attributes` mapping, the `get_task` fill-in makes
`initial_estimate`, `worked_time`, `billable_time` and `remaining_time`
present: an entry missing or `None` becomes `0`, an entry holding any
other value is unchanged, and non-time fields are untouched;
`get_task_postprocess` is exactly `filter_response` followed by this
fill-in, and the task-list attribute filter introduces no keys (so no
such defaulting happens on list fetches). -/
theorem C6_time_fields_filled (fkvs dkvs akvs : JObj)
    (hd : getKeyO fkvs "data" = some (.obj dkvs))
    (ha : getKeyO dkvs "attributes" = some (.obj akvs)) :
    ensure_time_fields (.obj fkvs)
      = some (.obj (setKeyO fkvs "data" (.obj (setKeyO dkvs "attributes"
          (.obj (fillTimeFields akvs)))))) ∧
    (∀ k, k ∈ time_fields →
      ((getKeyO akvs k = none ∨ getKeyO akvs k = some .null) →
        getKeyO (fillTimeFields akvs) k = some (.num 0)) ∧
      (∀ v, getKeyO akvs k = some v → v ≠ .null →
        getKeyO (fillTimeFields akvs) k = some v)) ∧
    (∀ k, ¬ k ∈ time_fields → getKeyO (fillTimeFields akvs) k = getKeyO akvs k) ∧
    (∀ x y, get_task_postprocess x = some y →
      ∃ f, filter_response x = some f ∧ ensure_time_fields f = some y) ∧
    (∀ l : JObj, (_filter_task_list_attributes l).keys ⊆ l.keys) := by
  refine ⟨ensure_time_fields_eq fkvs dkvs akvs hd ha, ?_, ?_, ?_, ?_⟩
  · intro k hk
    rw [fillTimeFields_eq]
    simp only [time_fields, List.mem_cons, List.not_mem_nil, or_false] at hk
    rcases hk with rfl | rfl | rfl | rfl
    · constructor
      · intro hmiss
        rw [fillStep_get_other _ _ _ (by decide), fillStep_get_other _ _ _ (by decide),
          fillStep_get_other _ _ _ (by decide)]
        exact fillStep_get_missing akvs _ hmiss
      · intro v hv hvn
        rw [fillStep_get_other _ _ _ (by decide), fillStep_get_other _ _ _ (by decide),
          fillStep_get_other _ _ _ (by decide)]
        exact fillStep_get_present akvs _ v hv hvn
    · constructor
      · intro hmiss
        rw [fillStep_get_other _ _ _ (by decide), fillStep_get_other _ _ _ (by decide)]
        apply fillStep_get_missing
        rw [fillStep_get_other _ _ _ (by decide)]
        exact hmiss
      · intro v hv hvn
        rw [fillStep_get_other _ _ _ (by decide), fillStep_get_other _ _ _ (by decide)]
        apply fillStep_get_present
        · rw [fillStep_get_other _ _ _ (by decide)]
          exact hv
        · exact hvn
    · constructor
      · intro hmiss
        rw [fillStep_get_other _ _ _ (by decide)]
        apply fillStep_get_missing
        rw [fillStep_get_other _ _ _ (by decide), fillStep_get_other _ _ _ (by decide)]
        exact hmiss
      · intro v hv hvn
        rw [fillStep_get_other _ _ _ (by decide)]
        apply fillStep_get_present
        · rw [fillStep_get_other _ _ _ (by decide), fillStep_get_other _ _ _ (by decide)]
          exact hv
        · exact hvn
    · constructor
      · intro hmiss
        apply fillStep_get_missing
        rw [fillStep_get_other _ _ _ (by decide), fillStep_get_other _ _ _ (by decide),
          fillStep_get_other _ _ _ (by decide)]
        exact hmiss
      · intro v hv hvn
        apply fillStep_get_present
        · rw [fillStep_get_other _ _ _ (by decide), fillStep_get_other _ _ _ (by decide),
            fillStep_get_other _ _ _ (by decide)]
          exact hv
        · exact hvn
  · intro k hk
    simp only [time_fields, List.mem_cons, List.not_mem_nil, or_false, not_or] at hk
    obtain ⟨h1, h2, h3, h4⟩ := hk
    rw [fillTimeFields_eq, fillStep_get_other _ _ _ h4, fillStep_get_other _ _ _ h3,
      fillStep_get_other _ _ _ h2, fillStep_get_other _ _ _ h1]
  · intro x y h
    unfold get_task_postprocess at h
    rcases hf : filter_response x with _ | f
    · rw [hf] at h
      exact absurd h (by simp)
    · rw [hf] at h
      exact ⟨f, rfl, h⟩
  · intro l
    induction l with
    | nil => simp [_filter_task_list_attributes, JObj.keys, JObj.toList]
    | cons k2 v2 rest ih =>
      simp only [_filter_task_list_attributes]
      by_cases hc : essential_fields.contains k2
      · rw [if_pos hc]
        intro a hmem
        simp only [JObj.keys, JObj.toList, List.map, List.mem_cons] at hmem ⊢
        rcases hmem with h | h
        · exact Or.inl h
        · exact Or.inr (ih h)
      · rw [if_neg hc]
        intro a hmem
        simp only [JObj.keys, JObj.toList, List.map, List.mem_cons]
        exact Or.inr (ih hmem)

/-- Closed witness for C6 (amended): on attributes
`{"title": "T", "worked_time": 45}` the fill-in keeps `worked_time = 45`,
defaults `billable_time` to `0`, and leaves `title` untouched. -/
theorem C6_witness :
    ensure_time_fields (.obj (.cons "data" (.obj (.cons "type" (.str "tasks")
        (.cons "attributes" (.obj (.cons "title" (.str "T")
          (.cons "worked_time" (.num 45) .nil))) .nil))) .nil))
      = some (.obj (.cons "data" (.obj (.cons "type" (.str "tasks")
          (.cons "attributes" (.obj (.cons "title" (.str "T")
            (.cons "worked_time" (.num 45)
            (.cons "initial_estimate" (.num 0)
            (.cons "billable_time" (.num 0)
            (.cons "remaining_time" (.num 0) .nil)))))) .nil))) .nil)) ∧
    getKeyO (fillTimeFields (.cons "title" (.str "T")
        (.cons "worked_time" (.num 45) .nil))) "worked_time" = some (.num 45) ∧
    getKeyO (fillTimeFields (.cons "title" (.str "T")
        (.cons "worked_time" (.num 45) .nil))) "billable_time" = some (.num 0) ∧
    getKeyO (fillTimeFields (.cons "title" (.str "T")
        (.cons "worked_time" (.num 45) .nil))) "title" = some (.str "T") := by
  have h := C6_time_fields_filled
    (.cons "data" (.obj (.cons "type" (.str "tasks")
      (.cons "attributes" (.obj (.cons "title" (.str "T")
        (.cons "worked_time" (.num 45) .nil))) .nil))) .nil)
    (.cons "type" (.str "tasks")
      (.cons "attributes" (.obj (.cons "title" (.str "T")
        (.cons "worked_time" (.num 45) .nil))) .nil))
    (.cons "title" (.str "T") (.cons "worked_time" (.num 45) .nil))
    (by decide) (by decide)
  refine ⟨?_, ?_, ?_, ?_⟩
  · rw [h.1]
    decide
  · exact (h.2.1 "worked_time" (by decide)).2 (.num 45) (by decide) (by decide)
  · exact (h.2.1 "billable_time" (by decide)).1 (Or.inl (by decide))
  · exact h.2.2.1 "title" (by decide)

theorem getKeyO_none_of_not_mem_keys (l : JObj) (k : String) (h : ¬ k ∈ l.keys) :
    getKeyO l k = none := by
  induction l with
  | nil => rfl
  | cons k2 v2 rest ih =>
    simp only [JObj.keys, JObj.toList, List.map, List.mem_cons, not_or] at h
    simp only [getKeyO]
    rw [if_neg (fun he => h.1 he.symm)]
    exact ih (by simpa [JObj.keys] using h.2)

theorem _filter_task_list_attributes_keys (l : JObj) :
    (_filter_task_list_attributes l).keys ⊆ essential_fields := by
  induction l with
  | nil => simp [_filter_task_list_attributes, JObj.keys, JObj.toList]
  | cons k2 v2 rest ih =>
    simp only [_filter_task_list_attributes]
    by_cases hc : essential_fields.contains k2
    · rw [if_pos hc]
      intro a ha
      simp only [JObj.keys, JObj.toList, List.map, List.mem_cons] at ha
      rcases ha with rfl | ha
      · exact List.elem_iff.mp hc
      · exact ih ha
    · rw [if_neg hc]
      exact ih

theorem _filter_task_list_attributes_mem (l : JObj) (k : String) (v : JVal)
    (hmem : (k, v) ∈ l.toList) (hk : essential_fields.contains k = true) :
    (k, v) ∈ (_filter_task_list_attributes l).toList := by
  induction l with
  | nil => simp [JObj.toList] at hmem
  | cons k2 v2 rest ih =>
    simp only [JObj.toList, List.mem_cons] at hmem
    simp only [_filter_task_list_attributes]
    rcases hmem with heq | hmem
    · obtain ⟨rfl, rfl⟩ := Prod.mk.injEq .. ▸ heq
      rw [if_pos hk]
      simp [JObj.toList]
    · by_cases hc : essential_fields.contains k2
      · rw [if_pos hc]
        simp only [JObj.toList, List.mem_cons]
        exact Or.inr (ih hmem)
      · rw [if_neg hc]
        exact ih hmem

theorem setKeyO_keys_cases (l : JObj) (k : String) (v : JVal) (a : String)
    (ha : a ∈ (setKeyO l k v).keys) : a ∈ l.keys ∨ a = k := by
  induction l with
  | nil =>
    simp only [setKeyO, JObj.keys, JObj.toList, List.map, List.mem_cons,
      List.not_mem_nil, or_false] at ha
    exact Or.inr ha
  | cons k2 v2 rest ih =>
    simp only [setKeyO] at ha
    by_cases he : k2 = k
    · rw [if_pos he] at ha
      simp only [JObj.keys, JObj.toList, List.map, List.mem_cons] at ha ⊢
      rcases ha with rfl | ha
      · exact Or.inl (Or.inl rfl)
      · exact Or.inl (Or.inr ha)
    · rw [if_neg he] at ha
      simp only [JObj.keys, JObj.toList, List.map, List.mem_cons] at ha ⊢
      rcases ha with rfl | ha
      · exact Or.inl (Or.inl rfl)
      · rcases ih ha with h | h
        · exact Or.inl (Or.inr h)
        · exact Or.inr h

theorem addWebappUrlO_keys_cases (kvs : JObj) (a : String)
    (ha : a ∈ (addWebappUrlO kvs).keys) : a ∈ kvs.keys ∨ a = "webapp_url" := by
  unfold addWebappUrlO at ha
  split at ha
  · exact setKeyO_keys_cases _ _ _ _ ha
  · exact Or.inl ha

theorem tlMapItems_forall2 (inc : JVal) (items : JArr) :
    ∀ l : JArr, tlMapItems inc items = some l →
      List.Forall₂ (fun a b => tlItem inc a = some b) items.toList l.toList := by
  induction items with
  | nil =>
    intro l h
    simp only [tlMapItems, Option.some.injEq] at h
    subst h
    simp [JArr.toList]
  | cons it rest ih =>
    intro l h
    simp only [tlMapItems] at h
    rcases h1 : tlItem inc it with _ | it2
    · rw [h1] at h
      exact absurd h (by simp)
    · rw [h1] at h
      rcases h2 : tlMapItems inc rest with _ | rest2
      · rw [h2] at h
        exact absurd h (by simp)
      · rw [h2] at h
        dsimp only at h
        simp only [Option.some.injEq] at h
        subst h
        simp only [JArr.toList]
        exact List.Forall₂.cons h1 (ih rest2 h2)

theorem tlItem_task (inc : JVal) (kvs akvs : JObj) (out : JVal)
    (hty : getKeyO kvs "type" = some (.str "tasks"))
    (hat : getKeyO kvs "attributes" = some (.obj akvs))
    (h : tlItem inc (.obj kvs) = some out) :
    ∃ name : JVal,
      _extract_workflow_status_name (.obj kvs) inc = some name ∧
      out = .obj (addWebappUrlO (.cons "id" ((getKeyO kvs "id").getD .null)
        (.cons "type" (.str "tasks")
          (.cons "attributes" (.obj
            (if truthy name = true then
              setKeyO (_filter_task_list_attributes akvs) "workflow_status_name" name
             else _filter_task_list_attributes akvs)) .nil)))) := by
  unfold tlItem at h
  dsimp only at h
  rw [hty] at h
  simp only [Option.getD_some] at h
  rw [if_pos trivial] at h
  rw [hat] at h
  dsimp only at h
  rcases hext : _extract_workflow_status_name (.obj kvs) inc with _ | name
  · rw [hext] at h
    exact absurd h (by simp)
  · rw [hext] at h
    dsimp only at h
    simp only [Option.some.injEq] at h
    subst h
    exact ⟨name, rfl, rfl⟩

theorem tlItem_nontask (inc : JVal) (item : JVal)
    (h : ∀ kvs : JObj, item = .obj kvs → ¬ getKeyO kvs "type" = some (.str "tasks")) :
    tlItem inc item = some item := by
  unfold tlItem
  rcases item with _ | b | n | s | a | kvs
  · rfl
  · rfl
  · rfl
  · rfl
  · rfl
  · have hne := h kvs rfl
    dsimp only
    rw [if_neg ?_]
    intro hc
    rcases hg : getKeyO kvs "type" with _ | v
    · rw [hg] at hc
      exact absurd hc (by simp)
    · rw [hg] at hc
      simp only [Option.getD_some] at hc
      subst hc
      exact hne hg

theorem filter_task_list_response_data (rkvs : JObj) (items : JArr) (y : JVal)
    (hd : getKeyO rkvs "data" = some (.arr items))
    (hy : filter_task_list_response (.obj rkvs) = some y) :
    ∃ l : JArr,
      tlMapItems ((getKeyO rkvs "included").getD (.arr .nil)) items = some l ∧
      ∃ rest : JObj, y = remove_null_and_empty (.obj (.cons "data" (.arr l) rest)) ∧
        ∀ a, a ∈ rest.keys → a = "meta" := by
  unfold filter_task_list_response at hy
  simp only [hd] at hy
  rcases hml : tlMapItems ((getKeyO rkvs "included").getD (.arr .nil)) items with _ | l
  · rw [hml] at hy
    exact absurd hy (by simp)
  · rw [hml] at hy
    simp only [Option.map_some'] at hy
    rcases hm : getKeyO rkvs "meta" with _ | mv
    · rw [hm] at hy
      dsimp only at hy
      simp only [Option.some.injEq] at hy
      subst hy
      exact ⟨l, rfl, .nil, rfl, by simp [JObj.keys, JObj.toList]⟩
    · rcases mv with _ | b | n | s | a | mkvs <;> rw [hm] at hy <;> dsimp only at hy
      · exact absurd hy (by simp)
      · exact absurd hy (by simp)
      · exact absurd hy (by simp)
      · exact absurd hy (by simp)
      · exact absurd hy (by simp)
      · simp only [Option.some.injEq] at hy
        subst hy
        refine ⟨l, rfl, .cons "meta" (.obj (_clean_meta_object mkvs)) .nil, rfl, ?_⟩
        simp [JObj.keys, JObj.toList]

theorem rn_data_entry (l : JArr) (rest : JObj)
    (hrest : ∀ a, a ∈ rest.keys → a = "meta") (ykvs : JObj)
    (hy : remove_null_and_empty (.obj (.cons "data" (.arr l) rest)) = .obj ykvs) :
    getKeyO ykvs "data" = some (.arr (rnArr l)) ∨
      (rnArr l = .nil ∧ getKeyO ykvs "data" = none) := by
  have hrn : remove_null_and_empty (.obj (.cons "data" (.arr l) rest))
      = .obj (rnObj false (.cons "data" (.arr l) rest) (.cons "data" (.arr l) rest)) := rfl
  rw [hrn] at hy
  simp only [JVal.obj.injEq] at hy
  subst hy
  rw [rnObj_cons_generic false _ "data" (.arr l) rest
    (by intro h; exact absurd h (by decide)) (by decide) (by decide) (by decide) (by decide)]
  have hra : remove_null_and_empty (.arr l) = .arr (rnArr l) := rfl
  rw [hra]
  rcases hnl : rnArr l with _ | ⟨v, rest2⟩
  · rw [if_pos (by simp [isEmptyLike])]
    refine Or.inr ⟨rfl, ?_⟩
    apply getKeyO_none_of_not_mem_keys
    intro hc
    have := hrest "data" (rnObj_keys_subset false _ rest hc)
    exact absurd this (by decide)
  · rw [if_neg (by simp [isEmptyLike])]
    simp [getKeyO]

/-- **C7.**  Task-list view: for a document whose `data` is a list, the
output of `filter_task_list_response` is the deep-prune of the item-wise
transform, which maps every dictionary item of type `tasks` to an object
whose keys are among `id`, `type`, `attributes`, `webapp_url`; its
attributes keys are restricted to the allow list (which already contains
`workflow_status_name`), `description` is never among them, allow-listed
entries other than `workflow_status_name` are retained with their values,
and a truthy `id` yields `webapp_url`; non-task items pass through
unchanged (up to the final deep-prune, which only ever removes keys —
both the pruner and the attribute filter never add any). -/
theorem C7_task_list_view :
    (∀ (rkvs : JObj) (items : JArr) (y : JVal),
      getKeyO rkvs "data" = some (.arr items) →
      filter_task_list_response (.obj rkvs) = some y →
      ∃ l : JArr,
        tlMapItems ((getKeyO rkvs "included").getD (.arr .nil)) items = some l ∧
        List.Forall₂ (fun a b => tlItem ((getKeyO rkvs "included").getD (.arr .nil)) a = some b)
          items.toList l.toList ∧
        ∃ ykvs : JObj, y = .obj ykvs ∧
          (getKeyO ykvs "data" = some (.arr (rnArr l)) ∨
            (rnArr l = .nil ∧ getKeyO ykvs "data" = none))) ∧
    (∀ (inc : JVal) (kvs akvs : JObj) (out : JVal),
      getKeyO kvs "type" = some (.str "tasks") →
      getKeyO kvs "attributes" = some (.obj akvs) →
      tlItem inc (.obj kvs) = some out →
      ∃ okvs : JObj, out = .obj okvs ∧
        (∀ a, a ∈ okvs.keys → a ∈ ["id", "type", "attributes", "webapp_url"]) ∧
        (∀ oa : JObj, getKeyO okvs "attributes" = some (.obj oa) →
          (∀ a, a ∈ oa.keys → a ∈ essential_fields) ∧
          ¬ "description" ∈ oa.keys ∧
          (∀ (k : String) (v : JVal), essential_fields.contains k = true →
            k ≠ "workflow_status_name" → (k, v) ∈ akvs.toList → (k, v) ∈ oa.toList)) ∧
        (truthy ((getKeyO kvs "id").getD .null) = true →
          getKeyO okvs "webapp_url"
            = some (.str (get_webapp_url "tasks" (pyStr ((getKeyO kvs "id").getD .null)))))) ∧
    (∀ (inc item : JVal),
      (∀ kvs : JObj, item = .obj kvs → ¬ getKeyO kvs "type" = some (.str "tasks")) →
      tlItem inc item = some item) ∧
    (∀ (dropOrg : Bool) (whole l : JObj), (rnObj dropOrg whole l).keys ⊆ l.keys) ∧
    (∀ (l : JObj) (t : Option JVal), (_filter_attributes l t).keys ⊆ l.keys) ∧
    ¬ "description" ∈ essential_fields := by
  refine ⟨?_, ?_, tlItem_nontask, rnObj_keys_subset, _filter_attributes_keys_subset, by decide⟩
  · intro rkvs items y hd hy
    obtain ⟨l, hml, rest, hyeq, hrest⟩ := filter_task_list_response_data rkvs items y hd hy
    refine ⟨l, hml, tlMapItems_forall2 _ items l hml, ?_⟩
    refine ⟨rnObj false (.cons "data" (.arr l) rest) (.cons "data" (.arr l) rest), ?_, ?_⟩
    · rw [hyeq]
      rfl
    · exact rn_data_entry l rest hrest _ rfl
  · intro inc kvs akvs out hty hat h
    obtain ⟨name, hext, hout⟩ := tlItem_task inc kvs akvs out hty hat h
    refine ⟨_, hout, ?_, ?_, ?_⟩
    · intro a ha
      rcases addWebappUrlO_keys_cases _ a ha with hb | rfl
      · simp only [JObj.keys, JObj.toList, List.map, List.mem_cons, List.not_mem_nil,
          or_false] at hb
        rcases hb with rfl | rfl | rfl
        · simp
        · simp
        · simp
      · simp
    · intro oa hoa
      rw [addWebappUrlO_get_other _ _ (by decide)] at hoa
      simp only [getKeyO] at hoa
      rw [if_neg (by decide), if_neg (by decide), if_pos trivial] at hoa
      simp only [Option.some.injEq, JVal.obj.injEq] at hoa
      subst hoa
      refine ⟨?_, ?_, ?_⟩
      · intro a ha
        by_cases htr : truthy name = true
        · rw [if_pos htr] at ha
          rcases setKeyO_keys_cases _ _ _ _ ha with hb | rfl
          · exact _filter_task_list_attributes_keys akvs hb
          · decide
        · rw [if_neg htr] at ha
          exact _filter_task_list_attributes_keys akvs ha
      · intro hc
        by_cases htr : truthy name = true
        · rw [if_pos htr] at hc
          rcases setKeyO_keys_cases _ _ _ _ hc with hb | hb
          · exact absurd (_filter_task_list_attributes_keys akvs hb) (by decide)
          · exact absurd hb (by decide)
        · rw [if_neg htr] at hc
          exact absurd (_filter_task_list_attributes_keys akvs hc) (by decide)
      · intro k v hk hkw hmem
        by_cases htr : truthy name = true
        · rw [if_pos htr]
          exact setKeyO_mem_other _ _ _ _ _
            (_filter_task_list_attributes_mem akvs k v hmem hk) hkw
        · rw [if_neg htr]
          exact _filter_task_list_attributes_mem akvs k v hmem hk
    · intro hid
      rw [addWebappUrlO_pos _ (.str "tasks") ((getKeyO kvs "id").getD .null)
        (by simp only [getKeyO]; rw [if_neg (by decide), if_pos trivial])
        (by simp only [getKeyO]; rw [if_pos trivial]) (by decide) hid]
      rw [getKeyO_setKeyO_same]
      rfl

/-- A task-list document: one task (with `description`) and one `people`
item. -/
def taskListSample : JVal :=
  .obj (.cons "data" (.arr
    (.cons (.obj (.cons "type" (.str "tasks") (.cons "id" (.str "9")
      (.cons "attributes" (.obj (.cons "title" (.str "T")
        (.cons "description" (.str "long text")
        (.cons "task_number" (.num 12) .nil)))) .nil))))
    (.cons (.obj (.cons "type" (.str "people") (.cons "id" (.str "3") .nil)))
    .nil))) .nil)

/-- Closed witness for C7: on `taskListSample` the task item loses
`description`, keeps `title` and `task_number`, gains `webapp_url`, and
the `people` item passes through unchanged. -/
theorem C7_witness :
    filter_task_list_response taskListSample
      = some (.obj (.cons "data" (.arr
          (.cons (.obj (.cons "id" (.str "9") (.cons "type" (.str "tasks")
            (.cons "attributes" (.obj (.cons "title" (.str "T")
              (.cons "task_number" (.num 12) .nil)))
            (.cons "webapp_url" (.str "https://app.productive.io/12345/tasks/9") .nil)))))
          (.cons (.obj (.cons "type" (.str "people") (.cons "id" (.str "3") .nil)))
          .nil))) .nil)) ∧
    (∃ l : JArr,
      tlMapItems (.arr .nil)
        (.cons (.obj (.cons "type" (.str "tasks") (.cons "id" (.str "9")
          (.cons "attributes" (.obj (.cons "title" (.str "T")
            (.cons "description" (.str "long text")
            (.cons "task_number" (.num 12) .nil)))) .nil))))
        (.cons (.obj (.cons "type" (.str "people") (.cons "id" (.str "3") .nil)))
        .nil)) = some l) ∧
    (∃ okvs : JObj,
      tlItem (.arr .nil) (.obj (.cons "type" (.str "tasks") (.cons "id" (.str "9")
          (.cons "attributes" (.obj (.cons "title" (.str "T")
            (.cons "description" (.str "long text")
            (.cons "task_number" (.num 12) .nil)))) .nil))))
        = some (.obj okvs) ∧
      (∀ a, a ∈ okvs.keys → a ∈ ["id", "type", "attributes", "webapp_url"]) ∧
      (∀ oa : JObj, getKeyO okvs "attributes" = some (.obj oa) →
        (∀ a, a ∈ oa.keys → a ∈ essential_fields) ∧ ¬ "description" ∈ oa.keys ∧
        (∀ (k : String) (v : JVal), essential_fields.contains k = true →
          k ≠ "workflow_status_name" →
          (k, v) ∈ (JObj.cons "title" (.str "T")
            (.cons "description" (.str "long text")
            (.cons "task_number" (.num 12) .nil))).toList → (k, v) ∈ oa.toList))) := by
  refine ⟨by decide, ?_, ?_⟩
  · obtain ⟨l, hml, _⟩ := C7_task_list_view.1
      (.cons "data" (.arr
        (.cons (.obj (.cons "type" (.str "tasks") (.cons "id" (.str "9")
          (.cons "attributes" (.obj (.cons "title" (.str "T")
            (.cons "description" (.str "long text")
            (.cons "task_number" (.num 12) .nil)))) .nil))))
        (.cons (.obj (.cons "type" (.str "people") (.cons "id" (.str "3") .nil)))
        .nil))) .nil)
      (.cons (.obj (.cons "type" (.str "tasks") (.cons "id" (.str "9")
        (.cons "attributes" (.obj (.cons "title" (.str "T")
          (.cons "description" (.str "long text")
          (.cons "task_number" (.num 12) .nil)))) .nil))))
      (.cons (.obj (.cons "type" (.str "people") (.cons "id" (.str "3") .nil)))
      .nil))
      (.obj (.cons "data" (.arr
        (.cons (.obj (.cons "id" (.str "9") (.cons "type" (.str "tasks")
          (.cons "attributes" (.obj (.cons "title" (.str "T")
            (.cons "task_number" (.num 12) .nil)))
          (.cons "webapp_url" (.str "https://app.productive.io/12345/tasks/9") .nil)))))
        (.cons (.obj (.cons "type" (.str "people") (.cons "id" (.str "3") .nil)))
        .nil))) .nil))
      (by decide) (by decide)
    exact ⟨l, hml⟩
  · obtain ⟨okvs, hout, hkeys, hattrs, _⟩ := C7_task_list_view.2.1 (.arr .nil)
      (.cons "type" (.str "tasks") (.cons "id" (.str "9")
        (.cons "attributes" (.obj (.cons "title" (.str "T")
          (.cons "description" (.str "long text")
          (.cons "task_number" (.num 12) .nil)))) .nil)))
      (.cons "title" (.str "T") (.cons "description" (.str "long text")
        (.cons "task_number" (.num 12) .nil)))
      (.obj (.cons "id" (.str "9") (.cons "type" (.str "tasks")
        (.cons "attributes" (.obj (.cons "title" (.str "T")
          (.cons "task_number" (.num 12) .nil)))
        (.cons "webapp_url" (.str "https://app.productive.io/12345/tasks/9") .nil)))))
      (by decide) (by decide) (by decide)
    exact ⟨okvs, by rw [← hout]; decide, hkeys, hattrs⟩
